import Mathlib

/-!
# The scalar-loop SIMD layer of `velox/common/base/SimdIntrinsics.h`

A shallow embedding of namespace `xsimd` of the header: architecture tags, the
integer scalar types that are given registers, `batch_bool` (masks), `batch`
(numeric vectors) and the two combine helpers, followed by theorems about them.

Conventions of the embedding.

* A lane is stored as its bit pattern: a natural number below `2 ^ (8 * sizeof T)`
  (two's complement for the signed types).  `Scalar.toInt` reads the C++ value of a
  pattern and `Scalar.ofInt` is the conversion of an integer value into the type
  (reduction modulo `2 ^ (8 * sizeof T)`).
* A register (`std::array<T, N>`) is a `List Nat`; the predicate `wf` says that the
  list has the `N` lanes of the array type and that each lane fits the lane width.
* The lane type of a mask is `get_unsigned_type_t<sizeof(T)>` under the default tag
  and `T` itself under every other tag; both have `8 * sizeof T` bits, and every
  mask operation below acts on the bit pattern, on which the two agree.
* A default-constructed register (`BatchT result;`) has indeterminate lanes; it is
  represented as zero-filled, and every loop that follows overwrites all lanes.
* Signed overflow at `int` width or wider, which C++ leaves undefined, is given the
  two's-complement wrap-around result.
* The targets of the header (AVX2 and AArch64) are little-endian.
* The structures `batch` and `batch_bool` are indexed by the integer types.  The
  operations that the header gives to every element type (broadcast, stores, and the
  mask operations) are also defined on registers of any element type, `float` and
  `double` included (section "Registers of any element type"); there a floating lane
  is its IEEE-754 bit pattern, its test against zero and its equality are read on the
  pattern, an operation that cannot be instantiated or whose result C++ leaves
  undefined gives `none`, and a numeric conversion to or from a floating type is a
  parameter.  Floating-point arithmetic is not embedded.
-/

namespace xsimd

/-! ## Architecture tags (lines 24-96) -/

/-- The architecture tags: `generic16`, `generic32`, `generic64`, the named
instruction sets deriving from them, and `half_vec`. -/
inductive Arch where
  | generic16 | generic32 | generic64
  | sse2 | avx | avx2 | avx512 | neon
  | half_vec
  deriving DecidableEq

/-- The register width in bytes, `A::size()`; `sse2`, `avx`, `avx2`, `avx512` and `neon`
inherit it from their base struct. -/
def Arch.size : Arch → Nat
  | .generic16 => 16
  | .generic32 => 32
  | .generic64 => 64
  | .sse2 => 16
  | .avx => 32
  | .avx2 => 32
  | .avx512 => 64
  | .neon => 16
  | .half_vec => 8

/-- The alignment in bytes, `A::alignment()`. -/
def Arch.alignment : Arch → Nat
  | .generic16 => 16
  | .generic32 => 32
  | .generic64 => 64
  | .sse2 => 16
  | .avx => 32
  | .avx2 => 32
  | .avx512 => 64
  | .neon => 16
  | .half_vec => 8

/-! ## Scalar types (lines 138-148) -/

/-- The integer types passed to `XSIMD_DECLARE_SIMD_REGISTERS`.  Plain `char` carries
the signedness that the ABI gives it (signed on x86-64, unsigned on AArch64 Linux). -/
inductive Scalar where
  | signed_char
  | unsigned_char
  | char (isSigned : Bool)
  | short
  | unsigned_short
  | int
  | unsigned_int
  | long_int
  | unsigned_long_int
  | long_long_int
  | unsigned_long_long_int
  deriving DecidableEq

/-- The value of `sizeof(T)` in bytes on the LP64 targets of the header. -/
def Scalar.sizeof : Scalar → Nat
  | .signed_char => 1
  | .unsigned_char => 1
  | .char _ => 1
  | .short => 2
  | .unsigned_short => 2
  | .int => 4
  | .unsigned_int => 4
  | .long_int => 8
  | .unsigned_long_int => 8
  | .long_long_int => 8
  | .unsigned_long_long_int => 8

/-- Whether the type is a signed integer type. -/
def Scalar.isSigned : Scalar → Bool
  | .signed_char => true
  | .unsigned_char => false
  | .char s => s
  | .short => true
  | .unsigned_short => false
  | .int => true
  | .unsigned_int => false
  | .long_int => true
  | .unsigned_long_int => false
  | .long_long_int => true
  | .unsigned_long_long_int => false

/-- The number of bits of a lane, `8 * sizeof(T)`. -/
def Scalar.bits (T : Scalar) : Nat := 8 * T.sizeof

/-- The C++ value of a lane with bit pattern `p`: the pattern itself for an unsigned
type, its two's-complement reading for a signed type. -/
def Scalar.toInt (T : Scalar) (p : Nat) : Int :=
  if T.isSigned = true ∧ 2 ^ (T.bits - 1) ≤ p then (p : Int) - 2 ^ T.bits else (p : Int)

/-- The bit pattern obtained by converting the integer value `v` to `T`. -/
def Scalar.ofInt (T : Scalar) (v : Int) : Nat := (v % 2 ^ T.bits).toNat

/-- The all-ones bit pattern of the lane width. -/
def Scalar.allOnes (T : Scalar) : Nat := 2 ^ T.bits - 1

/-- The least value of `T`. -/
def Scalar.minVal (T : Scalar) : Int := if T.isSigned = true then -(2 ^ (T.bits - 1)) else 0

/-- The greatest value of `T`. -/
def Scalar.maxVal (T : Scalar) : Int :=
  if T.isSigned = true then 2 ^ (T.bits - 1) - 1 else 2 ^ T.bits - 1

/-! ## Scalar function objects

The `<functional>` objects and `left_shift` / `right_shift` (lines 231-245) applied to two
lanes of type `T`.  Arithmetic and comparisons act on the values of the lanes (after
integral promotion the operation is exact), and the result is converted back to `T` by
the assignment `result.data[i] = ...`. -/

/-- The functor `std::plus<>` on two lanes of type `T`, converted back to `T`. -/
def plus (T : Scalar) (x y : Nat) : Nat := T.ofInt (T.toInt x + T.toInt y)

/-- The functor `std::minus<>` on two lanes of type `T`, converted back to `T`. -/
def minus (T : Scalar) (x y : Nat) : Nat := T.ofInt (T.toInt x - T.toInt y)

/-- The functor `std::multiplies<>` on two lanes of type `T`, converted back to `T`. -/
def multiplies (T : Scalar) (x y : Nat) : Nat := T.ofInt (T.toInt x * T.toInt y)

/-- The functor `std::bit_and<>`: bitwise AND of the two patterns. -/
def bit_and (x y : Nat) : Nat := x &&& y

/-- The functor `std::bit_or<>`: bitwise OR of the two patterns. -/
def bit_or (x y : Nat) : Nat := x ||| y

/-- The functor `std::bit_xor<>`: bitwise XOR of the two patterns. -/
def bit_xor (x y : Nat) : Nat := x ^^^ y

/-- The functor `std::bit_not<>` on a lane of `T.bits` bits: every bit flipped. -/
def bit_not (T : Scalar) (x : Nat) : Nat := 2 ^ T.bits - 1 - x

/-- The functor `std::logical_and<>`: both operands are tested against zero; the result
is a `bool`. -/
def logical_and (x y : Nat) : Bool := decide (x ≠ 0) && decide (y ≠ 0)

/-- The functor `std::logical_or<>`: both operands are tested against zero; the result
is a `bool`. -/
def logical_or (x y : Nat) : Bool := decide (x ≠ 0) || decide (y ≠ 0)

/-- Integral conversion of a `bool` to a lane: `true` is 1 and `false` is 0. -/
def bool_to_lane (b : Bool) : Nat := if b then 1 else 0

/-- The functor `std::equal_to<>` on two lanes of type `T`. -/
def equal_to (T : Scalar) (x y : Nat) : Bool := decide (T.toInt x = T.toInt y)

/-- The functor `std::not_equal_to<>` on two lanes of type `T`. -/
def not_equal_to (T : Scalar) (x y : Nat) : Bool := decide (T.toInt x ≠ T.toInt y)

/-- The functor `std::greater_equal<>` on two lanes of type `T`. -/
def greater_equal (T : Scalar) (x y : Nat) : Bool := decide (T.toInt x ≥ T.toInt y)

/-- The functor `std::less_equal<>` on two lanes of type `T`. -/
def less_equal (T : Scalar) (x y : Nat) : Bool := decide (T.toInt x ≤ T.toInt y)

/-- The functor `std::greater<>` on two lanes of type `T`. -/
def greater (T : Scalar) (x y : Nat) : Bool := decide (T.toInt x > T.toInt y)

/-- The functor `std::less<>` on two lanes of type `T`. -/
def less (T : Scalar) (x y : Nat) : Bool := decide (T.toInt x < T.toInt y)

/-- The functor `left_shift`: `lhs << rhs` on two lanes of type `T`, converted back to
`T`.  The amount is the value of the right lane (C++ gives no meaning to a negative
amount or to one that reaches the width of the promoted type). -/
def left_shift (T : Scalar) (lhs rhs : Nat) : Nat :=
  T.ofInt (T.toInt lhs * 2 ^ (T.toInt rhs).toNat)

/-- The functor `right_shift`: `lhs >> rhs` on two lanes of type `T`, converted back to
`T`; on a negative left value the shift is arithmetic. -/
def right_shift (T : Scalar) (lhs rhs : Nat) : Nat :=
  T.ofInt (T.toInt lhs / 2 ^ (T.toInt rhs).toNat)

/-! ## Loops and combine helpers (lines 219-229, 360-372) -/

/-- The loop `for (size_t i = 0; i < n; ++i) body(i)` over a state. -/
def for_range {σ : Type} (body : Nat → σ → σ) : Nat → σ → σ
  | 0, s => s
  | n + 1, s => body n (for_range body n s)

/-- The helper `binary_combine<FuncT>` on the registers of two batches of `size`
lanes: `result.data[i] = func(batch1.data[i], batch2.data[i])` for every `i < size`. -/
def binary_combine (size : Nat) (func : Nat → Nat → Nat) (batch1 batch2 : List Nat) :
    List Nat :=
  for_range (fun i result => result.set i (func (batch1.getD i 0) (batch2.getD i 0)))
    size (List.replicate size 0)

/-- The helper `binary_combine_to_vec_bool<FuncT, ResultT>`:
`result.data[i] = func(batch1.data[i], batch2.data[i]) ? -1 : 0`, the `int` being
converted to the mask lane of `T.bits` bits. -/
def binary_combine_to_vec_bool (T : Scalar) (size : Nat) (func : Nat → Nat → Bool)
    (batch1 batch2 : List Nat) : List Nat :=
  for_range
    (fun i result =>
      result.set i (T.ofInt (if func (batch1.getD i 0) (batch2.getD i 0) then -1 else 0)))
    size (List.replicate size 0)

/-! ## Value types -/

/-- The numeric vector `batch<T, A>`: the register `data`. -/
structure batch (T : Scalar) (A : Arch) where
  data : List Nat
  deriving DecidableEq

/-- The mask vector `batch_bool<T, A>`: the register `data`. -/
structure batch_bool (T : Scalar) (A : Arch) where
  data : List Nat
  deriving DecidableEq

/-- The lane count `batch<T, A>::size = A::size() / sizeof(T)`. -/
def batch.size (T : Scalar) (A : Arch) : Nat := A.size / T.sizeof

/-- The lane count `batch_bool<T, A>::size = A::size() / sizeof(T)`. -/
def batch_bool.size (T : Scalar) (A : Arch) : Nat := A.size / T.sizeof

/-- A register of `batch<T, A>`: `size` lanes, each a pattern of `T.bits` bits. -/
def batch.wf {T : Scalar} {A : Arch} (b : batch T A) : Prop :=
  b.data.length = batch.size T A ∧ ∀ x ∈ b.data, x < 2 ^ T.bits

/-- A register of `batch_bool<T, A>`: `size` lanes, each a pattern of `T.bits` bits. -/
def batch_bool.wf {T : Scalar} {A : Arch} (m : batch_bool T A) : Prop :=
  m.data.length = batch_bool.size T A ∧ ∀ x ∈ m.data, x < 2 ^ T.bits

/-- The mask invariant of the specification: every lane is all-ones or all-zero. -/
def batch_bool.sentinel {T : Scalar} {A : Arch} (m : batch_bool T A) : Prop :=
  ∀ x ∈ m.data, x = T.allOnes ∨ x = 0

instance {T : Scalar} {A : Arch} (b : batch T A) : Decidable b.wf := by
  unfold batch.wf; infer_instance

instance {T : Scalar} {A : Arch} (m : batch_bool T A) : Decidable m.wf := by
  unfold batch_bool.wf; infer_instance

instance {T : Scalar} {A : Arch} (m : batch_bool T A) : Decidable m.sentinel := by
  unfold batch_bool.sentinel; infer_instance

/-! ## batch_bool (lines 247-358) -/

/-- The constant `static constexpr T true_v = -1`. -/
def batch_bool.true_v (T : Scalar) : Nat := T.ofInt (-1)

/-- The constant `static constexpr T false_v = 0`. -/
def batch_bool.false_v (T : Scalar) : Nat := T.ofInt 0

/-- The constructor `batch_bool(bool val)`:
`std::fill_n(this->data.data(), size, val ? true_v : false_v)`. -/
def batch_bool.ofBool (T : Scalar) (A : Arch) (val : Bool) : batch_bool T A :=
  ⟨List.replicate (batch_bool.size T A)
    (if val then batch_bool.true_v T else batch_bool.false_v T)⟩

/-- The constant `MSB_SHIFT = sizeof(T) * 8 - 1` of `batch_bool(batch_type)`. -/
def MSB_SHIFT (T : Scalar) : Nat := T.sizeof * 8 - 1

/-- The lambda of `batch_bool(batch_type)`: the `sizeof(el)` bytes of the lane are
copied into a zeroed `uint64_t`, which is shifted right by `MSB_SHIFT` and tested. -/
def msb_to_sentinel (T : Scalar) (el : Nat) : Nat :=
  let bits : Nat := (el % 2 ^ (8 * T.sizeof)) % 2 ^ 64
  if bits >>> MSB_SHIFT T ≠ 0 then batch_bool.true_v T else batch_bool.false_v T

/-- The constructor `batch_bool(batch_type batch)`: `std::transform` of the lambda over
the lanes of the batch. -/
def batch_bool.ofBatch {T : Scalar} {A : Arch} (b : batch T A) : batch_bool T A :=
  ⟨b.data.map (msb_to_sentinel T)⟩

/-- The operator `batch_bool::operator==`: the `bool` result of comparing the two
arrays, converted by `batch_bool(bool)`. -/
def batch_bool.op_eq {T : Scalar} {A : Arch} (m other : batch_bool T A) : batch_bool T A :=
  batch_bool.ofBool T A (decide (m.data = other.data))

/-- The operator `batch_bool::operator!=`: the `bool` result of comparing the two
arrays, converted by `batch_bool(bool)`. -/
def batch_bool.op_ne {T : Scalar} {A : Arch} (m other : batch_bool T A) : batch_bool T A :=
  batch_bool.ofBool T A (decide (m.data ≠ other.data))

/-- The operator `batch_bool::operator~`: `std::transform` of `std::bit_not` over a copy. -/
def batch_bool.op_compl {T : Scalar} {A : Arch} (m : batch_bool T A) : batch_bool T A :=
  ⟨m.data.map (bit_not T)⟩

/-- The operator `batch_bool::operator!`: the same body as `operator~`. -/
def batch_bool.op_not {T : Scalar} {A : Arch} (m : batch_bool T A) : batch_bool T A :=
  ⟨m.data.map (bit_not T)⟩

/-- The operator `batch_bool::operator&`: `binary_combine<std::bit_and<>>`. -/
def batch_bool.op_and {T : Scalar} {A : Arch} (m other : batch_bool T A) : batch_bool T A :=
  ⟨binary_combine (batch_bool.size T A) bit_and m.data other.data⟩

/-- The operator `batch_bool::operator|`: `binary_combine<std::bit_or<>>`. -/
def batch_bool.op_or {T : Scalar} {A : Arch} (m other : batch_bool T A) : batch_bool T A :=
  ⟨binary_combine (batch_bool.size T A) bit_or m.data other.data⟩

/-- The operator `batch_bool::operator^`: `binary_combine<std::bit_xor<>>`. -/
def batch_bool.op_xor {T : Scalar} {A : Arch} (m other : batch_bool T A) : batch_bool T A :=
  ⟨binary_combine (batch_bool.size T A) bit_xor m.data other.data⟩

/-- The operator `batch_bool::operator&&`: `binary_combine<std::logical_and<>>`; the
`bool` returned by the functor is stored into the lane. -/
def batch_bool.op_land {T : Scalar} {A : Arch} (m other : batch_bool T A) : batch_bool T A :=
  ⟨binary_combine (batch_bool.size T A) (fun x y => bool_to_lane (logical_and x y))
    m.data other.data⟩

/-- The operator `batch_bool::operator||`: `binary_combine<std::logical_or<>>`; the
`bool` returned by the functor is stored into the lane. -/
def batch_bool.op_lor {T : Scalar} {A : Arch} (m other : batch_bool T A) : batch_bool T A :=
  ⟨binary_combine (batch_bool.size T A) (fun x y => bool_to_lane (logical_or x y))
    m.data other.data⟩

/-- The member `batch_bool::store_aligned<bool>`:
`dst[i] = static_cast<bool>(this->data[i])` for every `i < size`. -/
def batch_bool.store_aligned {T : Scalar} {A : Arch} (m : batch_bool T A) (dst : List Bool) :
    List Bool :=
  for_range (fun i d => d.set i (decide (m.data.getD i 0 ≠ 0))) (batch_bool.size T A) dst

/-- The member `batch_bool::load_aligned`: `result.data[i] = src[i] ? -1 : 0` for every
`i < size`. -/
def batch_bool.load_aligned (T : Scalar) (A : Arch) (src : List Bool) : batch_bool T A :=
  ⟨for_range (fun i result => result.set i (T.ofInt (if src.getD i false then -1 else 0)))
    (batch_bool.size T A) (List.replicate (batch_bool.size T A) 0)⟩

/-- The member `batch_bool::load_unaligned`: `return load_aligned(src)`. -/
def batch_bool.load_unaligned (T : Scalar) (A : Arch) (src : List Bool) : batch_bool T A :=
  batch_bool.load_aligned T A src

/-! ## batch (lines 374-485) -/

/-- The constructor `batch(T val)`: `std::fill_n(this->data.data(), size, val)`. -/
def batch.ofScalar (T : Scalar) (A : Arch) (val : Nat) : batch T A :=
  ⟨List.replicate (batch.size T A) val⟩

/-- The operator `batch::operator==`. -/
def batch.op_eq {T : Scalar} {A : Arch} (a other : batch T A) : batch_bool T A :=
  ⟨binary_combine_to_vec_bool T (batch.size T A) (equal_to T) a.data other.data⟩

/-- The operator `batch::operator!=`. -/
def batch.op_ne {T : Scalar} {A : Arch} (a other : batch T A) : batch_bool T A :=
  ⟨binary_combine_to_vec_bool T (batch.size T A) (not_equal_to T) a.data other.data⟩

/-- The operator `batch::operator>=`. -/
def batch.op_ge {T : Scalar} {A : Arch} (a other : batch T A) : batch_bool T A :=
  ⟨binary_combine_to_vec_bool T (batch.size T A) (greater_equal T) a.data other.data⟩

/-- The operator `batch::operator<=`. -/
def batch.op_le {T : Scalar} {A : Arch} (a other : batch T A) : batch_bool T A :=
  ⟨binary_combine_to_vec_bool T (batch.size T A) (less_equal T) a.data other.data⟩

/-- The operator `batch::operator>`. -/
def batch.op_gt {T : Scalar} {A : Arch} (a other : batch T A) : batch_bool T A :=
  ⟨binary_combine_to_vec_bool T (batch.size T A) (greater T) a.data other.data⟩

/-- The operator `batch::operator<`. -/
def batch.op_lt {T : Scalar} {A : Arch} (a other : batch T A) : batch_bool T A :=
  ⟨binary_combine_to_vec_bool T (batch.size T A) (less T) a.data other.data⟩

/-- The operator `batch::operator^`. -/
def batch.op_xor {T : Scalar} {A : Arch} (a other : batch T A) : batch T A :=
  ⟨binary_combine (batch.size T A) bit_xor a.data other.data⟩

/-- The operator `batch::operator&`. -/
def batch.op_and {T : Scalar} {A : Arch} (a other : batch T A) : batch T A :=
  ⟨binary_combine (batch.size T A) bit_and a.data other.data⟩

/-- The operator `batch::operator*`. -/
def batch.op_mul {T : Scalar} {A : Arch} (a other : batch T A) : batch T A :=
  ⟨binary_combine (batch.size T A) (multiplies T) a.data other.data⟩

/-- The operator `batch::operator+`. -/
def batch.op_add {T : Scalar} {A : Arch} (a other : batch T A) : batch T A :=
  ⟨binary_combine (batch.size T A) (plus T) a.data other.data⟩

/-- The operator `batch::operator-`. -/
def batch.op_sub {T : Scalar} {A : Arch} (a other : batch T A) : batch T A :=
  ⟨binary_combine (batch.size T A) (minus T) a.data other.data⟩

/-- The operator `batch::operator<<`. -/
def batch.op_shl {T : Scalar} {A : Arch} (a other : batch T A) : batch T A :=
  ⟨binary_combine (batch.size T A) (left_shift T) a.data other.data⟩

/-- The operator `batch::operator>>`. -/
def batch.op_shr {T : Scalar} {A : Arch} (a other : batch T A) : batch T A :=
  ⟨binary_combine (batch.size T A) (right_shift T) a.data other.data⟩

/-- The member `batch::store_unaligned<U>`: `dst[i] = this->data[i]` for every
`i < size`, each lane converted from `T` to `U`. -/
def batch.store_unaligned {T : Scalar} {A : Arch} (b : batch T A) (U : Scalar)
    (dst : List Nat) : List Nat :=
  for_range (fun i d => d.set i (U.ofInt (T.toInt (b.data.getD i 0)))) (batch.size T A) dst

/-- The member `batch::load_unaligned<U>`: `result.data[i] = src[i]` for every
`i < size`, each element converted from `U` to `T`. -/
def batch.load_unaligned (T : Scalar) (A : Arch) (U : Scalar) (src : List Nat) : batch T A :=
  ⟨for_range (fun i result => result.set i (T.ofInt (U.toInt (src.getD i 0))))
    (batch.size T A) (List.replicate (batch.size T A) 0)⟩

/-! ## Register resolution and floating-point element types (lines 88-96, 149-150, 166-209)

The lane type of a mask depends on the tag, and with it the pattern that a sentinel of a
floating-point element type leaves in a mask lane.  The definitions of this section
follow `batch_bool(batch_type)` for every element type; on the integer types they agree
with `msb_to_sentinel`. -/

/-- The two build targets: the header names `generic` and `default_arch` under
`__aarch64__` and under `__AVX2__`. -/
inductive Target where
  | aarch64
  | avx2
  deriving DecidableEq

/-- The tag `default_arch`, also named `generic`, of a build target. -/
def default_arch : Target → Arch
  | .aarch64 => .neon
  | .avx2 => .avx2

/-- The element types passed to `XSIMD_DECLARE_SIMD_REGISTERS` (lines 138-150): the
integer types and the IEEE-754 types `float` and `double`. -/
inductive Element where
  | integer (T : Scalar)
  | float
  | double
  deriving DecidableEq

/-- The value of `sizeof(T)` in bytes for an element type. -/
def Element.sizeof : Element → Nat
  | .integer T => T.sizeof
  | .float => 4
  | .double => 8

/-- The type `detail::get_unsigned_type<S>::type`; only the sizes 1, 2, 4 and 8 are
specialised. -/
def get_unsigned_type : Nat → Option Scalar
  | 1 => some .unsigned_char
  | 2 => some .unsigned_short
  | 4 => some .unsigned_int
  | 8 => some .unsigned_long_int
  | _ => none

/-- The lane type of `get_bool_simd_register_t<T, A>`.  The specialisation for `generic`
resolves to `simd_register<get_unsigned_type_t<sizeof(T)>, generic>`; the primary
template, which serves every other tag, resolves to `simd_register<T, A>`, whose lanes
have type `T`. -/
def get_bool_simd_register (tgt : Target) (E : Element) (A : Arch) : Option Element :=
  if A = default_arch tgt then (get_unsigned_type E.sizeof).map Element.integer else some E

/-- The bit pattern of `static constexpr T true_v = -1`: the value -1 converted to the
element type, which is all-ones for an integer type and -1.0 (sign bit set, biased
exponent of 1.0, zero fraction) for `float` and `double`. -/
def Element.true_v : Element → Nat
  | .integer T => batch_bool.true_v T
  | .float => 0xBF800000
  | .double => 0xBFF0000000000000

/-- The bit pattern of `static constexpr T false_v = 0`: all-zero in every element type. -/
def Element.false_v : Element → Nat
  | .integer T => batch_bool.false_v T
  | .float => 0
  | .double => 0

/-- The assignment of a sentinel of element type `E` to a mask lane of type `L`.  Between
integer types of one width and between equal types the pattern is kept; 0.0 converts to
the integer 0; the conversion of -1.0 to an unsigned integer type is undefined in C++
and gives `none`, as do the pairs of types that the register resolution never yields. -/
def sentinel_to_lane (E L : Element) (isTrue : Bool) : Option Nat :=
  match E, L with
  | .integer _, .integer _ => some (if isTrue then E.true_v else E.false_v)
  | .float, .float => some (if isTrue then E.true_v else E.false_v)
  | .double, .double => some (if isTrue then E.true_v else E.false_v)
  | .float, .integer _ => if isTrue then none else some 0
  | .double, .integer _ => if isTrue then none else some 0
  | _, _ => none

/-- The lambda of `batch_bool(batch_type)` for any element type, followed by the
assignment of its result to the mask lane of `get_bool_simd_register_t<T, A>`. -/
def msb_to_mask_lane (tgt : Target) (E : Element) (A : Arch) (el : Nat) : Option Nat :=
  let bits : Nat := (el % 2 ^ (8 * E.sizeof)) % 2 ^ 64
  match get_bool_simd_register tgt E A with
  | none => none
  | some L => sentinel_to_lane E L (decide (bits >>> (E.sizeof * 8 - 1) ≠ 0))

/-- The constructor `batch_bool(batch_type batch)` for any element type, on the register
of the batch. -/
def mask_of_element_batch (tgt : Target) (E : Element) (A : Arch) (data : List Nat) :
    List (Option Nat) :=
  data.map (msb_to_mask_lane tgt E A)

/-! ## Further members of batch, compound mask operators and free functions
(lines 324-345, 383-389, 448-507) -/

/-- The constructor `explicit batch(const batch_bool_type& b)`: the mask register is
reinterpreted as the data register, so every lane keeps its bit pattern. -/
def batch.ofMask {T : Scalar} {A : Arch} (b : batch_bool T A) : batch T A :=
  ⟨b.data⟩

/-- The member `T get(size_t pos)`: `return this->data[pos]`. -/
def batch.get {T : Scalar} {A : Arch} (b : batch T A) (pos : Nat) : Nat :=
  b.data.getD pos 0

/-- The static member `batch::broadcast(T value)`: `return batch(value)`. -/
def batch.broadcast (T : Scalar) (A : Arch) (value : Nat) : batch T A :=
  batch.ofScalar T A value

/-- The member `batch::store_aligned<U>`: `return store_unaligned(dst)`. -/
def batch.store_aligned {T : Scalar} {A : Arch} (b : batch T A) (U : Scalar)
    (dst : List Nat) : List Nat :=
  b.store_unaligned U dst

/-- The member `batch::load_aligned<U>`: `return load_unaligned(src)`. -/
def batch.load_aligned (T : Scalar) (A : Arch) (U : Scalar) (src : List Nat) : batch T A :=
  batch.load_unaligned T A U src

/-- The free function `broadcast<T, A>(T value)`: `return batch<T, A>::broadcast(value)`. -/
def broadcast (T : Scalar) (A : Arch) (value : Nat) : batch T A :=
  batch.broadcast T A value

/-- The free function `load_aligned<A, From>(const From* ptr)`:
`return batch<From, A>::load_aligned(ptr)`. -/
def load_aligned (A : Arch) (From : Scalar) (ptr : List Nat) : batch From A :=
  batch.load_aligned From A From ptr

/-- The free function `load_unaligned<A, From>(const From* ptr)`:
`return batch<From, A>::load_unaligned(ptr)`. -/
def load_unaligned (A : Arch) (From : Scalar) (ptr : List Nat) : batch From A :=
  batch.load_unaligned From A From ptr

/-- The pointee types at which `batch_bool::store_aligned<U>(U* dst)` is instantiated
below: `bool` for a boolean buffer, `void` for the call made by `store_unaligned`. -/
inductive Pointee where
  | bool
  | void
  deriving DecidableEq

/-- The member template `batch_bool::store_aligned<U>(U* dst)` at a pointee type.  Its
body assigns through `dst[i]`.  With `U = void` that expression is ill-formed (`void`
is not an object type), the instantiation is rejected and there is no result: `none`. -/
def batch_bool.store_aligned_at {T : Scalar} {A : Arch} (U : Pointee) (m : batch_bool T A)
    (dst : List Bool) : Option (List Bool) :=
  match U with
  | .bool => some (m.store_aligned dst)
  | .void => none

/-- The member `void store_unaligned(void* dst) { store_aligned(dst); }`: the argument
has type `void*`, so the template parameter of `store_aligned` is deduced as `void`. -/
def batch_bool.store_unaligned {T : Scalar} {A : Arch} (m : batch_bool T A)
    (dst : List Bool) : Option (List Bool) :=
  batch_bool.store_aligned_at Pointee.void m dst

/-- The implicitly declared copy assignment of `batch_bool`, `lhs = rhs`, on an object
expression `lhs` that is const-qualified or not.  The operator is a non-const member:
on a const object expression no candidate is viable, the program is ill-formed and
there is no result (`none`); otherwise the object takes the value of `rhs`. -/
def batch_bool.copy_assign {T : Scalar} {A : Arch} (lhsIsConst : Bool)
    (rhs : batch_bool T A) : Option (batch_bool T A) :=
  if lhsIsConst then none else some rhs

/-- The operator `batch_bool& operator&=(const batch_bool& other) const noexcept`:
`return (*this) = (*this) & other`.  The member is declared `const`, so `*this` is a
const object expression.  The result is the value of the receiver after the call. -/
def batch_bool.op_and_assign {T : Scalar} {A : Arch} (m other : batch_bool T A) :
    Option (batch_bool T A) :=
  batch_bool.copy_assign true (m.op_and other)

/-- The operator `batch_bool& operator|=(const batch_bool& other) const noexcept`:
`return (*this) = (*this) | other`, in a member declared `const`. -/
def batch_bool.op_or_assign {T : Scalar} {A : Arch} (m other : batch_bool T A) :
    Option (batch_bool T A) :=
  batch_bool.copy_assign true (m.op_or other)

/-- The operator `batch_bool& operator^=(const batch_bool& other) const noexcept`:
`return (*this) = (*this) ^ other`, in a member declared `const`. -/
def batch_bool.op_xor_assign {T : Scalar} {A : Arch} (m other : batch_bool T A) :
    Option (batch_bool T A) :=
  batch_bool.copy_assign true (m.op_xor other)

/-- The length of `simd_register<T, A>::register_type`, which
`XSIMD_DECLARE_SIMD_REGISTER` declares as `std::array<T, A::size() / sizeof(T)>`. -/
def simd_register_length (E : Element) (A : Arch) : Nat := A.size / E.sizeof

/-- The length of the register of `get_bool_simd_register_t<T, A>`: the length of
`simd_register<L, A>` for the lane type `L` that the resolution gives. -/
def bool_simd_register_length (tgt : Target) (E : Element) (A : Arch) : Option Nat :=
  (get_bool_simd_register tgt E A).map (fun L => simd_register_length L A)

/-! ## Stores as steps on the receiver and the destination (lines 335-340, 461-467) -/

/-- The member `batch::store_unaligned<U>` as a step on the pair of the receiver and the
destination buffer: each turn of the loop runs `dst[i] = this->data[i]`, which reads the
receiver and assigns to the buffer. -/
def batch.store_unaligned_step {T : Scalar} {A : Arch} (U : Scalar)
    (s : batch T A × List Nat) : batch T A × List Nat :=
  for_range (fun i st => (st.1, st.2.set i (U.ofInt (T.toInt (st.1.data.getD i 0)))))
    (batch.size T A) s

/-- The member `batch::store_aligned<U>` as a step: `return store_unaligned(dst)`. -/
def batch.store_aligned_step {T : Scalar} {A : Arch} (U : Scalar)
    (s : batch T A × List Nat) : batch T A × List Nat :=
  batch.store_unaligned_step U s

/-- The member `batch_bool::store_aligned<bool>` as a step on the pair of the receiver
and the destination buffer: each turn of the loop runs
`dst[i] = static_cast<bool>(this->data[i])`. -/
def batch_bool.store_aligned_step {T : Scalar} {A : Arch}
    (s : batch_bool T A × List Bool) : batch_bool T A × List Bool :=
  for_range (fun i st => (st.1, st.2.set i (decide (st.1.data.getD i 0 ≠ 0))))
    (batch_bool.size T A) s

/-! ## Registers of any element type (lines 247-358, 374-485)

The members below are the ones of `batch_bool<T, A>` and `batch<T, A>` on the register
(the list of lane patterns) for any element type `T`, integer or floating.  The lanes of
a mask have the type given by `get_bool_simd_register`. -/

/-- The number of bits of a lane of an element type, `8 * sizeof(T)`. -/
def Element.bits (E : Element) : Nat := 8 * E.sizeof

/-- The conversion `static_cast<bool>(lane)` of a lane of type `L`.  An integer lane is
true when it is nonzero.  A floating lane is true unless its value is +0.0 or -0.0, that
is unless every bit below the sign bit is zero; a NaN converts to true. -/
def Element.lane_to_bool : Element → Nat → Bool
  | .integer _, p => decide (p ≠ 0)
  | .float, p => decide (p % 2 ^ 31 ≠ 0)
  | .double, p => decide (p % 2 ^ 63 ≠ 0)

/-- Whether a lane of a floating type is a NaN: every exponent bit set and a nonzero
fraction.  An integer lane never is. -/
def Element.is_nan : Element → Nat → Bool
  | .integer _, _ => false
  | .float, p => decide (p / 2 ^ 23 % 2 ^ 8 = 255 ∧ p % 2 ^ 23 ≠ 0)
  | .double, p => decide (p / 2 ^ 52 % 2 ^ 11 = 2047 ∧ p % 2 ^ 52 ≠ 0)

/-- The comparison `==` of two lanes of type `L`: equality of the values for an integer
type; for a floating type neither lane is a NaN and the patterns are equal or both
lanes are zeros. -/
def Element.lane_eq : Element → Nat → Nat → Bool
  | .integer T, p, q => decide (T.toInt p = T.toInt q)
  | .float, p, q =>
      !Element.float.is_nan p && !Element.float.is_nan q &&
        (decide (p = q) || (!Element.float.lane_to_bool p && !Element.float.lane_to_bool q))
  | .double, p, q =>
      !Element.double.is_nan p && !Element.double.is_nan q &&
        (decide (p = q) || (!Element.double.lane_to_bool p && !Element.double.lane_to_bool q))

/-- The comparison `operator==` of two `std::array`s with lanes of type `L`: every pair
of lanes at one index compares equal. -/
def array_eq (L : Element) (d1 d2 : List Nat) : Bool :=
  decide (d1.length = d2.length) && (List.zipWith L.lane_eq d1 d2).all id

/-- The lane count `A::size() / sizeof(T)` of `batch_bool<T, A>` for any element type. -/
def any_batch_bool.size (E : Element) (A : Arch) : Nat := A.size / E.sizeof

/-- The lane count `A::size() / sizeof(T)` of `batch<T, A>` for any element type. -/
def any_batch.size (E : Element) (A : Arch) : Nat := A.size / E.sizeof

/-- A register of `N` lanes for the element type `E` and the tag `A`, each lane a
pattern of `8 * sizeof(E)` bits. -/
def register_wf (E : Element) (A : Arch) (d : List Nat) : Prop :=
  d.length = A.size / E.sizeof ∧ ∀ x ∈ d, x < 2 ^ E.bits

instance (E : Element) (A : Arch) (d : List Nat) : Decidable (register_wf E A d) := by
  unfold register_wf; infer_instance

/-- The constructor `batch_bool(bool val)` for any element type:
`std::fill_n(this->data.data(), size, val ? true_v : false_v)`, the sentinel of type `T`
being assigned to lanes of the mask lane type. -/
def any_batch_bool.ofBool (tgt : Target) (E : Element) (A : Arch) (val : Bool) :
    Option (List Nat) :=
  match get_bool_simd_register tgt E A with
  | none => none
  | some L => (sentinel_to_lane E L val).map (List.replicate (any_batch_bool.size E A))

/-- The operator `batch_bool::operator==` for any element type: the `bool` result of
comparing the two arrays, converted by `batch_bool(bool)`. -/
def any_batch_bool.op_eq (tgt : Target) (E : Element) (A : Arch) (d other : List Nat) :
    Option (List Nat) :=
  match get_bool_simd_register tgt E A with
  | none => none
  | some L => any_batch_bool.ofBool tgt E A (array_eq L d other)

/-- The operator `batch_bool::operator!=` for any element type: the `bool` result of
comparing the two arrays, converted by `batch_bool(bool)`. -/
def any_batch_bool.op_ne (tgt : Target) (E : Element) (A : Arch) (d other : List Nat) :
    Option (List Nat) :=
  match get_bool_simd_register tgt E A with
  | none => none
  | some L => any_batch_bool.ofBool tgt E A (!array_eq L d other)

/-- The operator `batch_bool::operator~` for any element type.  The functor
`std::bit_not` applies `~` to a lane, which is ill-formed on a lane of floating type:
there the member cannot be instantiated (`none`). -/
def any_batch_bool.op_compl (tgt : Target) (E : Element) (A : Arch) (d : List Nat) :
    Option (List Nat) :=
  match get_bool_simd_register tgt E A with
  | some (.integer L) => some (d.map (bit_not L))
  | _ => none

/-- The operator `batch_bool::operator&` for any element type:
`binary_combine<std::bit_and<>>`; `&` is ill-formed on lanes of floating type (`none`). -/
def any_batch_bool.op_and (tgt : Target) (E : Element) (A : Arch) (d other : List Nat) :
    Option (List Nat) :=
  match get_bool_simd_register tgt E A with
  | some (.integer _) => some (binary_combine (any_batch_bool.size E A) bit_and d other)
  | _ => none

/-- The operator `batch_bool::operator|` for any element type:
`binary_combine<std::bit_or<>>`; `|` is ill-formed on lanes of floating type (`none`). -/
def any_batch_bool.op_or (tgt : Target) (E : Element) (A : Arch) (d other : List Nat) :
    Option (List Nat) :=
  match get_bool_simd_register tgt E A with
  | some (.integer _) => some (binary_combine (any_batch_bool.size E A) bit_or d other)
  | _ => none

/-- The member `batch_bool::store_aligned<bool>` for any element type:
`dst[i] = static_cast<bool>(this->data[i])` for every `i < size`. -/
def any_batch_bool.store_aligned (tgt : Target) (E : Element) (A : Arch) (d : List Nat)
    (dst : List Bool) : Option (List Bool) :=
  match get_bool_simd_register tgt E A with
  | none => none
  | some L =>
      some (for_range (fun i out => out.set i (L.lane_to_bool (d.getD i 0)))
        (any_batch_bool.size E A) dst)

/-- The member `batch_bool::store_aligned<bool>` for any element type, as a step on the
pair of the receiver and the destination buffer. -/
def any_batch_bool.store_aligned_step (tgt : Target) (E : Element) (A : Arch)
    (s : List Nat × List Bool) : Option (List Nat × List Bool) :=
  match get_bool_simd_register tgt E A with
  | none => none
  | some L =>
      some (for_range (fun i st => (st.1, st.2.set i (L.lane_to_bool (st.1.getD i 0))))
        (any_batch_bool.size E A) s)

/-- The member `batch_bool::load_aligned` for any element type:
`result.data[i] = src[i] ? -1 : 0` for every `i < size`, the `int` being converted to
the mask lane type (-1 becomes -1.0 in a floating lane). -/
def any_batch_bool.load_aligned (tgt : Target) (E : Element) (A : Arch) (src : List Bool) :
    Option (List Nat) :=
  match get_bool_simd_register tgt E A with
  | none => none
  | some L =>
      some (for_range
        (fun i result => result.set i (if src.getD i false then L.true_v else L.false_v))
        (any_batch_bool.size E A) (List.replicate (any_batch_bool.size E A) 0))

/-- The constructor `batch(T val)` for any element type:
`std::fill_n(this->data.data(), size, val)`. -/
def any_batch.ofScalar (E : Element) (A : Arch) (val : Nat) : List Nat :=
  List.replicate (any_batch.size E A) val

/-- The member `T get(size_t pos)` for any element type: `return this->data[pos]`. -/
def any_batch.get (d : List Nat) (pos : Nat) : Nat := d.getD pos 0

/-- The static member `batch::broadcast(T value)` for any element type:
`return batch(value)`. -/
def any_batch.broadcast (E : Element) (A : Arch) (value : Nat) : List Nat :=
  any_batch.ofScalar E A value

/-- The free function `broadcast<T, A>(T value)` for any element type:
`return batch<T, A>::broadcast(value)`. -/
def any_broadcast (E : Element) (A : Arch) (value : Nat) : List Nat :=
  any_batch.broadcast E A value

/-- The member `batch::store_unaligned<U>` for any element type `T` and any buffer
element type `U`: `dst[i] = this->data[i]` for every `i < size`.  The implicit
conversion of a lane from `T` to `U` is the parameter `conv`: the identity when `U` is
`T`, `U.ofInt ∘ T.toInt` between integer types, a floating-point numeric conversion
otherwise. -/
def any_batch.store_unaligned (E : Element) (A : Arch) (conv : Nat → Nat) (d : List Nat)
    (dst : List Nat) : List Nat :=
  for_range (fun i out => out.set i (conv (d.getD i 0))) (any_batch.size E A) dst

/-- The member `batch::store_aligned<U>` for any element type:
`return store_unaligned(dst)`. -/
def any_batch.store_aligned (E : Element) (A : Arch) (conv : Nat → Nat) (d : List Nat)
    (dst : List Nat) : List Nat :=
  any_batch.store_unaligned E A conv d dst

/-- The member `batch::store_unaligned<U>` for any element type, as a step on the pair
of the receiver and the destination buffer. -/
def any_batch.store_unaligned_step (E : Element) (A : Arch) (conv : Nat → Nat)
    (s : List Nat × List Nat) : List Nat × List Nat :=
  for_range (fun i st => (st.1, st.2.set i (conv (st.1.getD i 0)))) (any_batch.size E A) s

/-- The member `batch::store_aligned<U>` for any element type, as a step:
`return store_unaligned(dst)`. -/
def any_batch.store_aligned_step (E : Element) (A : Arch) (conv : Nat → Nat)
    (s : List Nat × List Nat) : List Nat × List Nat :=
  any_batch.store_unaligned_step E A conv s

/-! ## Auxiliary lemmas -/

theorem for_range_set_length {α : Type} (g : Nat → α) (n : Nat) (out : List α) :
    (for_range (fun i r => r.set i (g i)) n out).length = out.length := by
  induction n with
  | zero => rfl
  | succ k ih => simp [for_range, ih]

theorem for_range_set_getElem? {α : Type} (g : Nat → α) (n : Nat) (out : List α) (i : Nat) :
    (for_range (fun i r => r.set i (g i)) n out)[i]? =
      if i < n ∧ i < out.length then some (g i) else out[i]? := by
  induction n with
  | zero => simp [for_range]
  | succ k ih =>
    simp only [for_range]
    rw [List.getElem?_set]
    by_cases hki : k = i
    · subst hki
      simp only [for_range_set_length, if_true]
      by_cases hk : k < out.length
      · simp [hk]
      · have h1 : out[k]? = none := List.getElem?_eq_none (by omega)
        simp [hk, h1]
    · simp only [hki, if_false, ih]
      by_cases h1 : i < k
      · have : i < k + 1 := by omega
        simp [h1, this]
      · have : ¬ i < k + 1 := by omega
        simp [h1, this]

theorem for_range_set_getD {α : Type} (g : Nat → α) (n : Nat) (out : List α) (d : α) (i : Nat)
    (hi : i < n) (hlen : i < out.length) :
    (for_range (fun i r => r.set i (g i)) n out).getD i d = g i := by
  rw [List.getD_eq_getElem?_getD, for_range_set_getElem?]
  simp [hi, hlen]

theorem for_range_set_getD_of_le {α : Type} (g : Nat → α) (n : Nat) (out : List α) (d : α)
    (i : Nat) (hi : n ≤ i) :
    (for_range (fun i r => r.set i (g i)) n out).getD i d = out.getD i d := by
  rw [List.getD_eq_getElem?_getD, for_range_set_getElem?, List.getD_eq_getElem?_getD]
  have : ¬ i < n := by omega
  simp [this]

theorem for_range_set_eq_map {α : Type} (g : Nat → α) (n : Nat) (out : List α)
    (hlen : out.length = n) :
    for_range (fun i r => r.set i (g i)) n out = (List.range n).map g := by
  apply List.ext_getElem?
  intro i
  rw [for_range_set_getElem?]
  by_cases hi : i < n
  · simp [hi, hlen, List.getElem?_range]
  · have h1 : out[i]? = none := by
      apply List.getElem?_eq_none; omega
    have h2 : (List.range n)[i]? = none := List.getElem?_eq_none (by simp; omega)
    simp [hi, h1, h2]

theorem Scalar.sizeof_pos (T : Scalar) : 0 < T.sizeof := by
  cases T <;> simp [Scalar.sizeof]

theorem Scalar.bits_pos (T : Scalar) : 0 < T.bits := by
  have := T.sizeof_pos
  unfold Scalar.bits; omega

theorem Scalar.bits_le (T : Scalar) : T.bits ≤ 64 := by
  cases T <;> simp [Scalar.bits, Scalar.sizeof]

theorem Scalar.two_pow_bits (T : Scalar) : 2 ^ T.bits = 2 * 2 ^ (T.bits - 1) := by
  have h := T.bits_pos
  obtain ⟨k, hk⟩ : ∃ k, T.bits = k + 1 := ⟨T.bits - 1, by omega⟩
  rw [hk, Nat.add_sub_cancel, Nat.pow_succ, Nat.mul_comm]

theorem Scalar.ofInt_lt (T : Scalar) (v : Int) : T.ofInt v < 2 ^ T.bits := by
  unfold Scalar.ofInt
  have hpos : (0 : Int) < 2 ^ T.bits := by positivity
  have h1 := Int.emod_nonneg v (ne_of_gt hpos)
  have h2 := Int.emod_lt_of_pos v hpos
  zify
  rw [Int.toNat_of_nonneg h1]
  exact_mod_cast h2

theorem Scalar.ofInt_natCast (T : Scalar) (p : Nat) (h : p < 2 ^ T.bits) :
    T.ofInt (p : Int) = p := by
  unfold Scalar.ofInt
  have : ((p : Int) % 2 ^ T.bits) = p := by
    apply Int.emod_eq_of_lt (by positivity)
    exact_mod_cast h
  rw [this]; simp

theorem Scalar.ofInt_add_mul (T : Scalar) (v k : Int) :
    T.ofInt (v + k * 2 ^ T.bits) = T.ofInt v := by
  unfold Scalar.ofInt
  rw [Int.add_mul_emod_self]

theorem Scalar.ofInt_toInt (T : Scalar) (p : Nat) (h : p < 2 ^ T.bits) :
    T.ofInt (T.toInt p) = p := by
  unfold Scalar.toInt
  split
  · have := T.ofInt_add_mul (p : Int) (-1)
    rw [show (p : Int) - 2 ^ T.bits = (p : Int) + -1 * 2 ^ T.bits by ring, this]
    exact T.ofInt_natCast p h
  · exact T.ofInt_natCast p h

theorem Scalar.ofInt_neg_one (T : Scalar) : T.ofInt (-1) = T.allOnes := by
  have h1 : (1 : Nat) ≤ 2 ^ T.bits := Nat.one_le_two_pow
  have h := T.ofInt_add_mul (-1) 1
  rw [← h]
  have e : (-1 : Int) + 1 * 2 ^ T.bits = ((2 ^ T.bits - 1 : Nat) : Int) := by
    push_cast [Nat.cast_sub h1]; ring
  rw [e, T.ofInt_natCast _ (by omega)]
  rfl

theorem Scalar.ofInt_zero (T : Scalar) : T.ofInt 0 = 0 := by
  simp [Scalar.ofInt]

theorem Scalar.toInt_of_unsigned (T : Scalar) (hu : T.isSigned = false) (p : Nat) :
    T.toInt p = p := by
  simp [Scalar.toInt, hu]

theorem Scalar.toInt_modEq (T : Scalar) (p : Nat) :
    T.toInt p ≡ (p : Int) [ZMOD 2 ^ T.bits] := by
  unfold Scalar.toInt
  split
  · have : (p : Int) - 2 ^ T.bits = (p : Int) + -1 * 2 ^ T.bits := by ring
    rw [this]
    exact Int.ModEq.symm (by simp [Int.ModEq])
  · exact Int.ModEq.refl _

theorem Scalar.ofInt_modEq (T : Scalar) (v : Int) :
    ((T.ofInt v : Nat) : Int) ≡ v [ZMOD 2 ^ T.bits] := by
  unfold Scalar.ofInt
  rw [Int.toNat_of_nonneg (Int.emod_nonneg v (by positivity))]
  exact Int.mod_modEq v _

theorem Scalar.toInt_ofInt_modEq (T : Scalar) (v : Int) :
    T.toInt (T.ofInt v) ≡ v [ZMOD 2 ^ T.bits] :=
  (T.toInt_modEq _).trans (T.ofInt_modEq v)

theorem Scalar.toInt_range (T : Scalar) (p : Nat) (h : p < 2 ^ T.bits) :
    T.minVal ≤ T.toInt p ∧ T.toInt p ≤ T.maxVal := by
  have h2 := T.two_pow_bits
  have h3 : ((2 : Int) ^ T.bits) = 2 * 2 ^ (T.bits - 1) := by exact_mod_cast h2
  have hp : (p : Int) < 2 ^ T.bits := by exact_mod_cast h
  unfold Scalar.toInt Scalar.minVal Scalar.maxVal
  by_cases hs : T.isSigned = true
  · by_cases hp2 : 2 ^ (T.bits - 1) ≤ p
    · have : ((2 : Int) ^ (T.bits - 1)) ≤ p := by exact_mod_cast hp2
      simp only [hs, hp2, and_self, if_true]
      constructor <;> omega
    · have : (p : Int) < 2 ^ (T.bits - 1) := by
        have := Nat.lt_of_not_le hp2
        exact_mod_cast this
      simp only [hs, hp2, and_false, if_false, if_true]
      constructor <;> omega
  · have hs2 : T.isSigned = false := by simpa using hs
    simp only [hs2, false_and, if_false, Bool.false_eq_true]
    constructor <;> omega


theorem binary_combine_length (size : Nat) (func : Nat → Nat → Nat) (d1 d2 : List Nat) :
    (binary_combine size func d1 d2).length = size := by
  simp [binary_combine, for_range_set_length]

theorem binary_combine_getD (size : Nat) (func : Nat → Nat → Nat) (d1 d2 : List Nat)
    (i : Nat) (hi : i < size) :
    (binary_combine size func d1 d2).getD i 0 = func (d1.getD i 0) (d2.getD i 0) := by
  unfold binary_combine
  rw [for_range_set_getD (fun i => func (d1.getD i 0) (d2.getD i 0)) size _ 0 i hi (by simpa using hi)]

theorem binary_combine_eq_map (size : Nat) (func : Nat → Nat → Nat) (d1 d2 : List Nat) :
    binary_combine size func d1 d2 =
      (List.range size).map (fun i => func (d1.getD i 0) (d2.getD i 0)) := by
  unfold binary_combine
  exact for_range_set_eq_map (fun i => func (d1.getD i 0) (d2.getD i 0)) size _ (by simp)

theorem binary_combine_to_vec_bool_length (T : Scalar) (size : Nat) (func : Nat → Nat → Bool)
    (d1 d2 : List Nat) : (binary_combine_to_vec_bool T size func d1 d2).length = size := by
  simp [binary_combine_to_vec_bool, for_range_set_length]

theorem binary_combine_to_vec_bool_getD (T : Scalar) (size : Nat) (func : Nat → Nat → Bool)
    (d1 d2 : List Nat) (i : Nat) (hi : i < size) :
    (binary_combine_to_vec_bool T size func d1 d2).getD i 0 =
      if func (d1.getD i 0) (d2.getD i 0) = true then T.allOnes else 0 := by
  unfold binary_combine_to_vec_bool
  rw [for_range_set_getD
    (fun i => T.ofInt (if func (d1.getD i 0) (d2.getD i 0) then -1 else 0)) size _ 0 i hi
    (by simpa using hi)]
  by_cases h : func (d1.getD i 0) (d2.getD i 0) = true
  · simp only [h, if_true, T.ofInt_neg_one]
  · simp only [h, if_false, T.ofInt_zero, Bool.false_eq_true]

theorem binary_combine_to_vec_bool_eq_map (T : Scalar) (size : Nat) (func : Nat → Nat → Bool)
    (d1 d2 : List Nat) :
    binary_combine_to_vec_bool T size func d1 d2 =
      (List.range size).map
        (fun i => if func (d1.getD i 0) (d2.getD i 0) = true then T.allOnes else 0) := by
  unfold binary_combine_to_vec_bool
  rw [for_range_set_eq_map _ size _ (by simp)]
  apply List.map_congr_left
  intro i _
  by_cases h : func (d1.getD i 0) (d2.getD i 0) = true
  · simp only [h, if_true, T.ofInt_neg_one]
  · simp only [h, if_false, T.ofInt_zero, Bool.false_eq_true]

/-! ## Comparisons of batches -/

/-- C1: for every integer element type `T`, tag `A`, batches `a`, `b` and lane `i < N`,
lane `i` of each of `a == b`, `a != b`, `a < b`, `a <= b`, `a > b`, `a >= b` is the
all-ones pattern when the comparison holds between the values of lane `i` of `a` and of
`b`, and the all-zero pattern otherwise. -/
theorem batch_comparison_lane (T : Scalar) (A : Arch) (a b : batch T A) (i : Nat)
    (hi : i < batch.size T A) :
    ((a.op_eq b).data.getD i 0 =
        if T.toInt (a.data.getD i 0) = T.toInt (b.data.getD i 0) then T.allOnes else 0) ∧
    ((a.op_ne b).data.getD i 0 =
        if T.toInt (a.data.getD i 0) ≠ T.toInt (b.data.getD i 0) then T.allOnes else 0) ∧
    ((a.op_lt b).data.getD i 0 =
        if T.toInt (a.data.getD i 0) < T.toInt (b.data.getD i 0) then T.allOnes else 0) ∧
    ((a.op_le b).data.getD i 0 =
        if T.toInt (a.data.getD i 0) ≤ T.toInt (b.data.getD i 0) then T.allOnes else 0) ∧
    ((a.op_gt b).data.getD i 0 =
        if T.toInt (a.data.getD i 0) > T.toInt (b.data.getD i 0) then T.allOnes else 0) ∧
    ((a.op_ge b).data.getD i 0 =
        if T.toInt (a.data.getD i 0) ≥ T.toInt (b.data.getD i 0) then T.allOnes else 0) := by
  refine ⟨?_, ?_, ?_, ?_, ?_, ?_⟩
  · simp only [batch.op_eq, binary_combine_to_vec_bool_getD _ _ _ _ _ i hi, equal_to,
      decide_eq_true_eq]
  · simp only [batch.op_ne, binary_combine_to_vec_bool_getD _ _ _ _ _ i hi, not_equal_to,
      decide_eq_true_eq]
  · simp only [batch.op_lt, binary_combine_to_vec_bool_getD _ _ _ _ _ i hi, less,
      decide_eq_true_eq]
  · simp only [batch.op_le, binary_combine_to_vec_bool_getD _ _ _ _ _ i hi, less_equal,
      decide_eq_true_eq]
  · simp only [batch.op_gt, binary_combine_to_vec_bool_getD _ _ _ _ _ i hi, greater,
      decide_eq_true_eq]
  · simp only [batch.op_ge, binary_combine_to_vec_bool_getD _ _ _ _ _ i hi, greater_equal,
      decide_eq_true_eq]

/-- The scenario of C1: over four `int` lanes of a 128-bit tag, `(1,2,3,4) == (4,3,2,1)`
is the all-zero mask and `(1,2,3,4) < (4,3,2,1)` has lanes (true, true, false, false). -/
theorem batch_comparison_lane_witness :
    (1 : Nat) < batch.size Scalar.int Arch.sse2 ∧
    ((⟨[1, 2, 3, 4]⟩ : batch Scalar.int Arch.sse2).op_eq ⟨[4, 3, 2, 1]⟩).data = [0, 0, 0, 0] ∧
    ((⟨[1, 2, 3, 4]⟩ : batch Scalar.int Arch.sse2).op_lt ⟨[4, 3, 2, 1]⟩).data =
      [Scalar.int.allOnes, Scalar.int.allOnes, 0, 0] ∧
    ((⟨[1, 2, 3, 4]⟩ : batch Scalar.int Arch.sse2).op_lt ⟨[4, 3, 2, 1]⟩).data.getD 1 0 =
      (if Scalar.int.toInt 2 < Scalar.int.toInt 3 then Scalar.int.allOnes else 0) :=
  ⟨by decide, by decide, by decide,
    (batch_comparison_lane Scalar.int Arch.sse2 ⟨[1, 2, 3, 4]⟩ ⟨[4, 3, 2, 1]⟩ 1
      (by decide)).2.2.1⟩

/-! ## Masks: the sentinel invariant -/

theorem sentinel_getD (o : Nat) (l : List Nat) (h : ∀ x ∈ l, x = o ∨ x = 0) (i : Nat) :
    l.getD i 0 = o ∨ l.getD i 0 = 0 := by
  by_cases hi : i < l.length
  · rw [List.getD_eq_getElem l 0 hi]
    exact h _ (List.getElem_mem hi)
  · right
    rw [List.getD_eq_getElem?_getD, List.getElem?_eq_none (by omega)]
    rfl

theorem binary_combine_sentinel (o size : Nat) (func : Nat → Nat → Nat)
    (hf : ∀ x y, (x = o ∨ x = 0) → (y = o ∨ y = 0) → (func x y = o ∨ func x y = 0))
    (d1 d2 : List Nat) (h1 : ∀ x ∈ d1, x = o ∨ x = 0) (h2 : ∀ x ∈ d2, x = o ∨ x = 0) :
    ∀ x ∈ binary_combine size func d1 d2, x = o ∨ x = 0 := by
  rw [binary_combine_eq_map]
  intro x hx
  obtain ⟨i, _, rfl⟩ := List.mem_map.mp hx
  exact hf _ _ (sentinel_getD o d1 h1 i) (sentinel_getD o d2 h2 i)

theorem bit_not_allOnes (T : Scalar) : bit_not T T.allOnes = 0 := by
  simp [bit_not, Scalar.allOnes]

theorem bit_not_zero (T : Scalar) : bit_not T 0 = T.allOnes := by
  simp [bit_not, Scalar.allOnes]

theorem batch_bool.ofBool_data (T : Scalar) (A : Arch) (val : Bool) :
    (batch_bool.ofBool T A val).data =
      List.replicate (batch_bool.size T A) (if val = true then T.allOnes else 0) := by
  cases val
  · simp [batch_bool.ofBool, batch_bool.false_v, T.ofInt_zero]
  · simp [batch_bool.ofBool, batch_bool.true_v, T.ofInt_neg_one]

theorem batch_bool.ofBool_sentinel (T : Scalar) (A : Arch) (val : Bool) :
    (batch_bool.ofBool T A val).sentinel := by
  intro x hx
  rw [batch_bool.ofBool_data] at hx
  have := List.eq_of_mem_replicate hx
  cases val
  · right; simpa using this
  · left; simpa using this

/-- The operators `~`, `!`, `&`, `|`, `^`, `==` and `!=` of `batch_bool` keep every lane
all-ones or all-zero when the lanes of the operands are. -/
theorem batch_bool.sentinel_of_bitwise (T : Scalar) (A : Arch) (m1 m2 : batch_bool T A)
    (h1 : m1.sentinel) (h2 : m2.sentinel) :
    m1.op_compl.sentinel ∧ m1.op_not.sentinel ∧ (m1.op_and m2).sentinel ∧
    (m1.op_or m2).sentinel ∧ (m1.op_xor m2).sentinel ∧ (m1.op_eq m2).sentinel ∧
    (m1.op_ne m2).sentinel := by
  have hc : ∀ x ∈ m1.data.map (bit_not T), x = T.allOnes ∨ x = 0 := by
    intro x hx
    obtain ⟨y, hy, rfl⟩ := List.mem_map.mp hx
    rcases h1 y hy with h | h
    · right; rw [h, bit_not_allOnes]
    · left; rw [h, bit_not_zero]
  refine ⟨hc, hc, ?_, ?_, ?_, batch_bool.ofBool_sentinel _ _ _, batch_bool.ofBool_sentinel _ _ _⟩
  · apply binary_combine_sentinel T.allOnes _ bit_and _ _ _ h1 h2
    rintro x y (rfl | rfl) (rfl | rfl) <;> simp [bit_and]
  · apply binary_combine_sentinel T.allOnes _ bit_or _ _ _ h1 h2
    rintro x y (rfl | rfl) (rfl | rfl) <;> simp [bit_or]
  · apply binary_combine_sentinel T.allOnes _ bit_xor _ _ _ h1 h2
    rintro x y (rfl | rfl) (rfl | rfl) <;> simp [bit_xor]

/-- C2: the claim that `&&` and `||` return all-ones or all-zero lanes fails on the code.
On the eight-lane mask `batch_bool<int, avx2>(true)`, whose lanes are all-ones, both
`m && m` and `m || m` have every lane equal to 1, which is neither the all-ones nor the
all-zero pattern of 32 bits. -/
theorem logical_operators_store_one :
    (batch_bool.ofBool Scalar.int Arch.avx2 true).wf ∧
    (batch_bool.ofBool Scalar.int Arch.avx2 true).sentinel ∧
    ((batch_bool.ofBool Scalar.int Arch.avx2 true).op_land
        (batch_bool.ofBool Scalar.int Arch.avx2 true)).data = [1, 1, 1, 1, 1, 1, 1, 1] ∧
    ((batch_bool.ofBool Scalar.int Arch.avx2 true).op_lor
        (batch_bool.ofBool Scalar.int Arch.avx2 true)).data = [1, 1, 1, 1, 1, 1, 1, 1] ∧
    ¬ ((batch_bool.ofBool Scalar.int Arch.avx2 true).op_land
        (batch_bool.ofBool Scalar.int Arch.avx2 true)).sentinel ∧
    ¬ ((batch_bool.ofBool Scalar.int Arch.avx2 true).op_lor
        (batch_bool.ofBool Scalar.int Arch.avx2 true)).sentinel := by
  decide

theorem binary_combine_to_vec_bool_sentinel (T : Scalar) (size : Nat)
    (func : Nat → Nat → Bool) (d1 d2 : List Nat) :
    ∀ x ∈ binary_combine_to_vec_bool T size func d1 d2, x = T.allOnes ∨ x = 0 := by
  rw [binary_combine_to_vec_bool_eq_map]
  intro x hx
  obtain ⟨i, _, rfl⟩ := List.mem_map.mp hx
  by_cases h : func (d1.getD i 0) (d2.getD i 0) = true
  · left; rw [if_pos h]
  · right; rw [if_neg h]

theorem batch_bool.load_aligned_data (T : Scalar) (A : Arch) (src : List Bool) :
    (batch_bool.load_aligned T A src).data =
      (List.range (batch_bool.size T A)).map
        (fun i => if src.getD i false = true then T.allOnes else 0) := by
  unfold batch_bool.load_aligned
  simp only
  rw [for_range_set_eq_map _ _ _ (by simp)]
  apply List.map_congr_left
  intro i _
  by_cases h : src.getD i false = true
  · simp only [h, if_true, T.ofInt_neg_one]
  · simp only [h, if_false, T.ofInt_zero, Bool.false_eq_true]

theorem msb_to_sentinel_eq (T : Scalar) (el : Nat) :
    msb_to_sentinel T el = if el.testBit (8 * T.sizeof - 1) = true then T.allOnes else 0 := by
  have hpos := T.sizeof_pos
  have hle : 8 * T.sizeof ≤ 64 := T.bits_le
  obtain ⟨k, hk⟩ : ∃ k, 8 * T.sizeof = k + 1 := ⟨8 * T.sizeof - 1, by omega⟩
  have hlt : el % 2 ^ (8 * T.sizeof) < 2 ^ (8 * T.sizeof) := Nat.mod_lt _ (by positivity)
  have h64 : el % 2 ^ (8 * T.sizeof) % 2 ^ 64 = el % 2 ^ (8 * T.sizeof) :=
    Nat.mod_eq_of_lt (lt_of_lt_of_le hlt (Nat.pow_le_pow_right (by decide) hle))
  have hshift : MSB_SHIFT T = k := by unfold MSB_SHIFT; omega
  have hbit : (el % 2 ^ (k + 1)).testBit k = el.testBit k := by
    rw [Nat.testBit_mod_two_pow]; simp
  have hdiv : el % 2 ^ (k + 1) / 2 ^ k < 2 := by
    apply Nat.div_lt_of_lt_mul
    have := Nat.mod_lt el (show 0 < 2 ^ (k + 1) by positivity)
    rw [Nat.pow_succ] at this
    exact this
  have hiff : (el % 2 ^ (k + 1)) >>> k ≠ 0 ↔ el.testBit k = true := by
    rw [← hbit, Nat.testBit_to_div_mod, Nat.shiftRight_eq_div_pow]
    simp only [decide_eq_true_eq]
    generalize el % 2 ^ (k + 1) / 2 ^ k = q at hdiv
    omega
  rw [hk] at h64
  unfold msb_to_sentinel
  simp only [hk, h64, hshift, Nat.add_sub_cancel]
  by_cases hb : el.testBit k = true
  · rw [if_pos (hiff.mpr hb), if_pos hb]
    exact T.ofInt_neg_one
  · rw [if_neg (fun h => hb (hiff.mp h)), if_neg hb]
    exact T.ofInt_zero

theorem batch_bool.ofBatch_sentinel {T : Scalar} {A : Arch} (b : batch T A) :
    (batch_bool.ofBatch b).sentinel := by
  intro x hx
  obtain ⟨y, _, rfl⟩ := List.mem_map.mp hx
  rw [msb_to_sentinel_eq]
  by_cases h : y.testBit (8 * T.sizeof - 1) = true
  · left; rw [if_pos h]
  · right; rw [if_neg h]

/-- C3: every mask made from non-mask input has `N` lanes, each all-ones or all-zero:
`batch_bool(bool)`, `load_aligned` and `load_unaligned` on a boolean buffer of at least
`N` elements, the mask constructed from a batch, and the six comparisons of two
batches. -/
theorem mask_from_non_mask_input_sentinel (T : Scalar) (A : Arch) (val : Bool)
    (src : List Bool) (hsrc : batch_bool.size T A ≤ src.length)
    (b a c : batch T A) (hb : b.wf) :
    ((batch_bool.ofBool T A val).sentinel ∧ (batch_bool.ofBool T A val).wf) ∧
    ((batch_bool.load_aligned T A src).sentinel ∧ (batch_bool.load_aligned T A src).wf) ∧
    ((batch_bool.load_unaligned T A src).sentinel ∧
      (batch_bool.load_unaligned T A src).wf) ∧
    ((batch_bool.ofBatch b).sentinel ∧ (batch_bool.ofBatch b).wf) ∧
    ((a.op_eq c).sentinel ∧ (a.op_eq c).wf) ∧
    ((a.op_ne c).sentinel ∧ (a.op_ne c).wf) ∧
    ((a.op_lt c).sentinel ∧ (a.op_lt c).wf) ∧
    ((a.op_le c).sentinel ∧ (a.op_le c).wf) ∧
    ((a.op_gt c).sentinel ∧ (a.op_gt c).wf) ∧
    ((a.op_ge c).sentinel ∧ (a.op_ge c).wf) := by
  have hones : T.allOnes < 2 ^ T.bits := by
    have : 0 < 2 ^ T.bits := by positivity
    unfold Scalar.allOnes; omega
  have hwf : ∀ m : batch_bool T A, m.sentinel → m.data.length = batch_bool.size T A →
      m.sentinel ∧ m.wf := by
    intro m hs hl
    refine ⟨hs, hl, ?_⟩
    intro x hx
    rcases hs x hx with h | h
    · rw [h]; exact hones
    · rw [h]; positivity
  have hload : (batch_bool.load_aligned T A src).sentinel := by
    intro x hx
    rw [batch_bool.load_aligned_data] at hx
    obtain ⟨i, _, rfl⟩ := List.mem_map.mp hx
    by_cases h : src.getD i false = true
    · left; rw [if_pos h]
    · right; rw [if_neg h]
  have hloadlen : (batch_bool.load_aligned T A src).data.length = batch_bool.size T A := by
    have _ := hsrc
    rw [batch_bool.load_aligned_data]; simp
  refine ⟨hwf _ (batch_bool.ofBool_sentinel T A val) ?_, hwf _ hload hloadlen,
    hwf _ hload hloadlen, hwf _ (batch_bool.ofBatch_sentinel b) ?_,
    hwf _ (binary_combine_to_vec_bool_sentinel _ _ _ _ _) ?_,
    hwf _ (binary_combine_to_vec_bool_sentinel _ _ _ _ _) ?_,
    hwf _ (binary_combine_to_vec_bool_sentinel _ _ _ _ _) ?_,
    hwf _ (binary_combine_to_vec_bool_sentinel _ _ _ _ _) ?_,
    hwf _ (binary_combine_to_vec_bool_sentinel _ _ _ _ _) ?_,
    hwf _ (binary_combine_to_vec_bool_sentinel _ _ _ _ _) ?_⟩
  · rw [batch_bool.ofBool_data]; simp
  · simpa [batch_bool.ofBatch] using hb.1
  all_goals exact binary_combine_to_vec_bool_length _ _ _ _ _

/-- An instance of C3 on the eight lanes of `batch<int, avx2>`. -/
theorem mask_from_non_mask_input_sentinel_witness :
    batch_bool.size Scalar.int Arch.avx2 ≤
        [true, false, true, true, false, false, true, false].length ∧
    (⟨[1, 2, 3, 4, 5, 6, 7, 4294967295]⟩ : batch Scalar.int Arch.avx2).wf ∧
    (batch_bool.load_aligned Scalar.int Arch.avx2
        [true, false, true, true, false, false, true, false]).sentinel ∧
    (batch_bool.ofBatch
        (⟨[1, 2, 3, 4, 5, 6, 7, 4294967295]⟩ : batch Scalar.int Arch.avx2)).sentinel :=
  have h := mask_from_non_mask_input_sentinel Scalar.int Arch.avx2 true
    [true, false, true, true, false, false, true, false] (by decide)
    ⟨[1, 2, 3, 4, 5, 6, 7, 4294967295]⟩ ⟨[1, 2, 3, 4, 5, 6, 7, 8]⟩
    ⟨[8, 7, 6, 5, 4, 3, 2, 1]⟩ (by decide)
  ⟨by decide, by decide, h.2.1.1, h.2.2.2.1.1⟩

/-! ## Mask from a batch: most-significant-bit extraction -/

theorem get_bool_simd_register_integer (tgt : Target) (T : Scalar) (A : Arch) :
    ∃ L : Scalar, get_bool_simd_register tgt (Element.integer T) A = some (Element.integer L) := by
  unfold get_bool_simd_register
  by_cases h : A = default_arch tgt
  · rw [if_pos h]
    cases T <;> exact ⟨_, rfl⟩
  · rw [if_neg h]
    exact ⟨T, rfl⟩

/-- On an integer element type, under every tag and on both targets, the lane written by
the general constructor is the one that `msb_to_sentinel` gives. -/
theorem msb_to_mask_lane_integer (tgt : Target) (T : Scalar) (A : Arch) (el : Nat) :
    msb_to_mask_lane tgt (Element.integer T) A el = some (msb_to_sentinel T el) := by
  obtain ⟨L, hL⟩ := get_bool_simd_register_integer tgt T A
  unfold msb_to_mask_lane msb_to_sentinel
  simp only [hL, sentinel_to_lane, Element.true_v, Element.false_v, Element.sizeof, MSB_SHIFT]
  by_cases h : (el % 2 ^ (8 * T.sizeof) % 2 ^ 64) >>> (T.sizeof * 8 - 1) ≠ 0
  · rw [if_pos h, decide_eq_true h, if_pos rfl]
  · rw [if_neg h, decide_eq_false h]
    rfl

/-- C4 fails as stated for a floating-point element type: for the mask built from
`batch<float, generic16>(-1.0f)` the mask lanes have type `float` (`generic16` is the
default tag of neither target) and every lane receives `true_v`, the pattern
`0xBF800000` of -1.0f.  The most significant bit of each lane of the batch is 1, yet no
lane of the mask is the all-ones pattern `0xFFFFFFFF`. -/
theorem mask_of_float_batch_not_allOnes :
    get_bool_simd_register Target.avx2 Element.float Arch.generic16 = some Element.float ∧
    get_bool_simd_register Target.aarch64 Element.float Arch.generic16 = some Element.float ∧
    Arch.generic16.size / Element.float.sizeof = 4 ∧
    (0xBF800000 : Nat).testBit (8 * Element.float.sizeof - 1) = true ∧
    mask_of_element_batch Target.avx2 Element.float Arch.generic16
        [0xBF800000, 0xBF800000, 0xBF800000, 0xBF800000] =
      [some 0xBF800000, some 0xBF800000, some 0xBF800000, some 0xBF800000] ∧
    mask_of_element_batch Target.aarch64 Element.float Arch.generic16
        [0xBF800000, 0xBF800000, 0xBF800000, 0xBF800000] =
      [some 0xBF800000, some 0xBF800000, some 0xBF800000, some 0xBF800000] ∧
    (0xBF800000 : Nat) ≠ 2 ^ (8 * Element.float.sizeof) - 1 := by
  decide

/-- C4, amended: for every integer element type `T` (of 1, 2, 4 or 8 bytes), every tag
`A` and every batch `b`, lane `i` of the mask constructed from `b` is all-ones if and only
if bit number `8 * sizeof(T) - 1` of the bit pattern of lane `i` of `b` is 1, and
all-zero if and only if that bit is 0. -/
theorem mask_of_batch_lane (T : Scalar) (A : Arch) (b : batch T A) (hb : b.wf) (i : Nat)
    (hi : i < batch.size T A) :
    ((batch_bool.ofBatch b).data.getD i 0 = T.allOnes ↔
        (b.data.getD i 0).testBit (8 * T.sizeof - 1) = true) ∧
    ((batch_bool.ofBatch b).data.getD i 0 = 0 ↔
        (b.data.getD i 0).testBit (8 * T.sizeof - 1) = false) := by
  have hlen : i < b.data.length := by rw [hb.1]; exact hi
  have hones : T.allOnes ≠ 0 := by
    have : 2 ≤ 2 ^ T.bits := by
      calc 2 = 2 ^ 1 := by norm_num
        _ ≤ 2 ^ T.bits := Nat.pow_le_pow_right (by decide) T.bits_pos
    unfold Scalar.allOnes; omega
  have hlane : (batch_bool.ofBatch b).data.getD i 0 = msb_to_sentinel T (b.data.getD i 0) := by
    unfold batch_bool.ofBatch
    rw [List.getD_eq_getElem _ 0 (by simpa using hlen), List.getD_eq_getElem _ 0 hlen]
    simp
  rw [hlane, msb_to_sentinel_eq]
  by_cases h : (b.data.getD i 0).testBit (8 * T.sizeof - 1) = true
  · rw [if_pos h]
    exact ⟨⟨fun _ => h, fun _ => rfl⟩, ⟨fun e => absurd e hones, fun e => by rw [h] at e; cases e⟩⟩
  · have h2 : (b.data.getD i 0).testBit (8 * T.sizeof - 1) = false := by simpa using h
    rw [if_neg h]
    exact ⟨⟨fun e => absurd e.symm hones, fun e => absurd e h⟩, ⟨fun _ => h2, fun _ => rfl⟩⟩

/-- The scenario of C4: the mask built from `batch<int>(-1)` has all-ones lanes and the
one built from `batch<int>(1)` has all-zero lanes. -/
theorem mask_of_batch_lane_witness :
    (batch.ofScalar Scalar.int Arch.sse2 (Scalar.int.ofInt (-1))).wf ∧
    (2 : Nat) < batch.size Scalar.int Arch.sse2 ∧
    (batch_bool.ofBatch (batch.ofScalar Scalar.int Arch.sse2 (Scalar.int.ofInt (-1)))).data =
      List.replicate 4 Scalar.int.allOnes ∧
    (batch_bool.ofBatch (batch.ofScalar Scalar.int Arch.sse2 (Scalar.int.ofInt 1))).data =
      List.replicate 4 0 ∧
    ((batch_bool.ofBatch
        (batch.ofScalar Scalar.int Arch.sse2 (Scalar.int.ofInt (-1)))).data.getD 2 0 =
          Scalar.int.allOnes ↔
      ((batch.ofScalar Scalar.int Arch.sse2 (Scalar.int.ofInt (-1))).data.getD 2 0).testBit
        (8 * Scalar.int.sizeof - 1) = true) :=
  ⟨by decide, by decide, by decide, by decide,
    (mask_of_batch_lane Scalar.int Arch.sse2
      (batch.ofScalar Scalar.int Arch.sse2 (Scalar.int.ofInt (-1))) (by decide) 2
      (by decide)).1⟩

/-! ## Boolean algebra of masks -/

theorem bit_not_lt (T : Scalar) (x : Nat) : bit_not T x < 2 ^ T.bits := by
  have : 0 < 2 ^ T.bits := by positivity
  unfold bit_not; omega

theorem testBit_bit_not (T : Scalar) (x : Nat) (hx : x < 2 ^ T.bits) (j : Nat) :
    (bit_not T x).testBit j = (decide (j < T.bits) && !x.testBit j) := by
  have e : bit_not T x = 2 ^ T.bits - (x + 1) := by unfold bit_not; omega
  rw [e, Nat.testBit_two_pow_sub_succ hx]

theorem bit_not_bit_and (T : Scalar) (x y : Nat) (hx : x < 2 ^ T.bits) (hy : y < 2 ^ T.bits) :
    bit_not T (bit_and x y) = bit_or (bit_not T x) (bit_not T y) := by
  have hxy : bit_and x y < 2 ^ T.bits := Nat.and_lt_two_pow x hy
  apply Nat.eq_of_testBit_eq
  intro j
  unfold bit_or
  rw [Nat.testBit_or, testBit_bit_not T _ hxy, testBit_bit_not T _ hx, testBit_bit_not T _ hy]
  unfold bit_and
  rw [Nat.testBit_and]
  cases decide (j < T.bits) <;> cases x.testBit j <;> cases y.testBit j <;> rfl

theorem map_getD_range (l : List Nat) (n : Nat) (h : l.length = n) :
    (List.range n).map (fun i => l.getD i 0) = l := by
  apply List.ext_getElem
  · simp [h]
  · intro i h1 h2
    simp only [List.getElem_map, List.getElem_range]
    exact List.getD_eq_getElem l 0 h2

theorem batch.load_unaligned_data (T : Scalar) (A : Arch) (U : Scalar) (src : List Nat) :
    (batch.load_unaligned T A U src).data =
      (List.range (batch.size T A)).map (fun i => T.ofInt (U.toInt (src.getD i 0))) := by
  unfold batch.load_unaligned
  exact for_range_set_eq_map _ _ _ (by simp)

theorem batch.store_unaligned_getD {T : Scalar} {A : Arch} (b : batch T A) (U : Scalar)
    (dst : List Nat) (i : Nat) (hi : i < batch.size T A) (hlen : i < dst.length) :
    (b.store_unaligned U dst).getD i 0 = U.ofInt (T.toInt (b.data.getD i 0)) := by
  unfold batch.store_unaligned
  exact for_range_set_getD (fun i => U.ofInt (T.toInt (b.data.getD i 0))) _ dst 0 i hi hlen

theorem wf_getD_lt (bits : Nat) (l : List Nat) (h : ∀ x ∈ l, x < 2 ^ bits) (i : Nat) :
    l.getD i 0 < 2 ^ bits := by
  by_cases hi : i < l.length
  · rw [List.getD_eq_getElem _ 0 hi]
    exact h _ (List.getElem_mem hi)
  · rw [List.getD_eq_getElem?_getD, List.getElem?_eq_none (by omega)]
    exact Nat.pos_of_ne_zero (by positivity)

/-- C6: for every integer element type `T`, tag `A` and batch `b` with `N` lanes,
`store_unaligned` of `b` into a buffer of `T` holding at least `N` elements followed by
`load_unaligned` from that buffer returns a batch equal to `b`. -/
theorem batch_store_load_roundtrip (T : Scalar) (A : Arch) (b : batch T A) (hb : b.wf)
    (buf : List Nat) (hbuf : batch.size T A ≤ buf.length) :
    batch.load_unaligned T A T (b.store_unaligned T buf) = b := by
  have e : (batch.load_unaligned T A T (b.store_unaligned T buf)).data = b.data := by
    rw [batch.load_unaligned_data]
    have : ∀ i ∈ List.range (batch.size T A),
        T.ofInt (T.toInt ((b.store_unaligned T buf).getD i 0)) = b.data.getD i 0 := by
      intro i hi
      have hi2 : i < batch.size T A := List.mem_range.mp hi
      rw [batch.store_unaligned_getD b T buf i hi2 (by omega)]
      rw [T.ofInt_toInt _ (wf_getD_lt _ _ hb.2 i), T.ofInt_toInt _ (wf_getD_lt _ _ hb.2 i)]
    rw [List.map_congr_left this]
    exact map_getD_range _ _ hb.1
  cases b
  simpa [batch.load_unaligned] using e

/-- An instance of C6: four `int` lanes, one of them negative, stored into a buffer of
four elements and loaded back. -/
theorem batch_store_load_roundtrip_witness :
    (⟨[1, 4294967295, 3, 2147483648]⟩ : batch Scalar.int Arch.sse2).wf ∧
    batch.size Scalar.int Arch.sse2 ≤ [9, 9, 9, 9].length ∧
    (⟨[1, 4294967295, 3, 2147483648]⟩ : batch Scalar.int Arch.sse2).store_unaligned
      Scalar.int [9, 9, 9, 9] = [1, 4294967295, 3, 2147483648] ∧
    batch.load_unaligned Scalar.int Arch.sse2 Scalar.int
      ((⟨[1, 4294967295, 3, 2147483648]⟩ : batch Scalar.int Arch.sse2).store_unaligned
        Scalar.int [9, 9, 9, 9]) = ⟨[1, 4294967295, 3, 2147483648]⟩ :=
  ⟨by decide, by decide, by decide,
    batch_store_load_roundtrip Scalar.int Arch.sse2 ⟨[1, 4294967295, 3, 2147483648]⟩
      (by decide) [9, 9, 9, 9] (by decide)⟩

theorem Scalar.allOnes_ne_zero (T : Scalar) : T.allOnes ≠ 0 := by
  have : 2 ≤ 2 ^ T.bits := by
    calc 2 = 2 ^ 1 := by norm_num
      _ ≤ 2 ^ T.bits := Nat.pow_le_pow_right (by decide) T.bits_pos
  unfold Scalar.allOnes; omega

theorem batch_bool.store_aligned_getD {T : Scalar} {A : Arch} (m : batch_bool T A)
    (dst : List Bool) (i : Nat) (hi : i < batch_bool.size T A) (hlen : i < dst.length) :
    (m.store_aligned dst).getD i false = decide (m.data.getD i 0 ≠ 0) := by
  unfold batch_bool.store_aligned
  exact for_range_set_getD (fun i => decide (m.data.getD i 0 ≠ 0)) _ dst false i hi hlen

/-- On an integer element type: for every mask `m` whose lanes are each all-ones or
all-zero, storing `m` into a boolean buffer of at least `N` elements (a lane is written
as `true` when it is nonzero) and loading a mask from that buffer returns `m`. -/
theorem roundtrip_of_integer_mask_store (T : Scalar) (A : Arch) (m : batch_bool T A) (hm : m.wf)
    (hs : m.sentinel) (buf : List Bool) (hbuf : batch_bool.size T A ≤ buf.length) :
    batch_bool.load_aligned T A (m.store_aligned buf) = m := by
  have e : (batch_bool.load_aligned T A (m.store_aligned buf)).data = m.data := by
    rw [batch_bool.load_aligned_data]
    have : ∀ i ∈ List.range (batch_bool.size T A),
        (if (m.store_aligned buf).getD i false = true then T.allOnes else 0) =
          m.data.getD i 0 := by
      intro i hi
      have hi2 : i < batch_bool.size T A := List.mem_range.mp hi
      rw [batch_bool.store_aligned_getD m buf i hi2 (by omega)]
      rcases sentinel_getD T.allOnes m.data hs i with h | h
      · rw [h, if_pos (by simpa using T.allOnes_ne_zero)]
      · rw [h, if_neg (by simp)]
    rw [List.map_congr_left this]
    exact map_getD_range _ _ hm.1
  cases m
  simpa [batch_bool.load_aligned] using e

/-! ## Equality of masks -/

theorem batch_bool.size_pos (T : Scalar) (A : Arch) : 0 < batch_bool.size T A := by
  cases T <;> cases A <;> simp [batch_bool.size, Arch.size, Scalar.sizeof]

theorem list_eq_iff_getD (n : Nat) (l1 l2 : List Nat) (h1 : l1.length = n)
    (h2 : l2.length = n) : l1 = l2 ↔ ∀ i, i < n → l1.getD i 0 = l2.getD i 0 := by
  constructor
  · intro h i _; rw [h]
  · intro h
    apply List.ext_getElem (by rw [h1, h2])
    intro i hi1 hi2
    have := h i (by omega)
    rwa [List.getD_eq_getElem _ 0 hi1, List.getD_eq_getElem _ 0 hi2] at this

theorem replicate_allOnes_ne_zero (T : Scalar) (A : Arch) :
    List.replicate (batch_bool.size T A) T.allOnes ≠ List.replicate (batch_bool.size T A) 0 := by
  intro h
  have hpos := batch_bool.size_pos T A
  have h0 : (List.replicate (batch_bool.size T A) T.allOnes).getD 0 0 =
      (List.replicate (batch_bool.size T A) 0).getD 0 0 := by rw [h]
  rw [List.getD_eq_getElem _ 0 (by simpa using hpos),
    List.getD_eq_getElem _ 0 (by simpa using hpos)] at h0
  simp only [List.getElem_replicate] at h0
  exact T.allOnes_ne_zero h0

/-- C8, amended: for every integer element type `T`, every tag `A` and all masks `m1`,
`m2` of `batch_bool<T, A>`, `m1 == m2` compares the whole registers: the result has
every lane all-ones when every lane of `m1` is identical to the same lane of `m2`, and
every lane all-zero when at least one lane differs; `m1 != m2` is the all-ones mask
exactly when `m1 == m2` is the all-zero mask. -/
theorem mask_equality_whole_register (T : Scalar) (A : Arch) (m1 m2 : batch_bool T A)
    (h1 : m1.wf) (h2 : m2.wf) :
    ((∀ i, i < batch_bool.size T A → m1.data.getD i 0 = m2.data.getD i 0) →
      (m1.op_eq m2).data = List.replicate (batch_bool.size T A) T.allOnes) ∧
    ((∃ i, i < batch_bool.size T A ∧ m1.data.getD i 0 ≠ m2.data.getD i 0) →
      (m1.op_eq m2).data = List.replicate (batch_bool.size T A) 0) ∧
    ((m1.op_ne m2).data = List.replicate (batch_bool.size T A) T.allOnes ↔
      (m1.op_eq m2).data = List.replicate (batch_bool.size T A) 0) := by
  have hiff := list_eq_iff_getD (batch_bool.size T A) m1.data m2.data h1.1 h2.1
  refine ⟨?_, ?_, ?_⟩
  · intro h
    have e : m1.data = m2.data := hiff.mpr h
    simp only [batch_bool.op_eq, batch_bool.ofBool_data, e, decide_True, if_true]
  · rintro ⟨i, hi, hne⟩
    have e : m1.data ≠ m2.data := fun e => hne (hiff.mp e i hi)
    simp only [batch_bool.op_eq, batch_bool.ofBool_data, e, decide_False, if_false,
      Bool.false_eq_true]
  · by_cases e : m1.data = m2.data
    · simp only [batch_bool.op_eq, batch_bool.op_ne, batch_bool.ofBool_data, e, decide_True,
        if_true, ne_eq, not_true_eq_false, decide_False, if_false, Bool.false_eq_true]
      exact ⟨fun h => absurd h.symm (replicate_allOnes_ne_zero T A),
        fun h => absurd h (replicate_allOnes_ne_zero T A)⟩
    · simp only [batch_bool.op_eq, batch_bool.op_ne, batch_bool.ofBool_data, e, decide_False,
        if_false, ne_eq, not_false_eq_true, decide_True, if_true, Bool.false_eq_true]

/-- An instance of C8: two four-lane masks that differ in one lane only. -/
theorem mask_equality_whole_register_witness :
    (⟨[4294967295, 0, 0, 4294967295]⟩ : batch_bool Scalar.int Arch.sse2).wf ∧
    (⟨[4294967295, 0, 4294967295, 4294967295]⟩ : batch_bool Scalar.int Arch.sse2).wf ∧
    ((⟨[4294967295, 0, 0, 4294967295]⟩ : batch_bool Scalar.int Arch.sse2).op_eq
      ⟨[4294967295, 0, 4294967295, 4294967295]⟩).data = [0, 0, 0, 0] ∧
    ((⟨[4294967295, 0, 0, 4294967295]⟩ : batch_bool Scalar.int Arch.sse2).op_eq
      ⟨[4294967295, 0, 4294967295, 4294967295]⟩).data =
        List.replicate (batch_bool.size Scalar.int Arch.sse2) 0 :=
  ⟨by decide, by decide, by decide,
    (mask_equality_whole_register Scalar.int Arch.sse2 ⟨[4294967295, 0, 0, 4294967295]⟩
      ⟨[4294967295, 0, 4294967295, 4294967295]⟩ (by decide) (by decide)).2.1
      ⟨2, by decide, by decide⟩⟩

/-! ## The bitwise functors read on values

The bitwise functors are defined on bit patterns.  The lemmas of this section show that
they agree with the C++ reading on values: convert both lanes to their (promoted) integer
values, apply the two's-complement operation on integers, and convert the result back
to `T`. -/

theorem Scalar.toInt_cases (T : Scalar) (p : Nat) (h : p < 2 ^ T.bits) :
    T.toInt p = Int.ofNat p ∨ T.toInt p = Int.negSucc (2 ^ T.bits - 1 - p) := by
  unfold Scalar.toInt
  split
  · right
    rw [Int.negSucc_eq]
    have h1 : p + 1 ≤ 2 ^ T.bits := h
    have h2 : 2 ^ T.bits - 1 - p = 2 ^ T.bits - (p + 1) := by omega
    have : ((2 ^ T.bits - 1 - p : Nat) : Int) = 2 ^ T.bits - 1 - p := by
      rw [h2, Nat.cast_sub h1]; push_cast; ring
    rw [this]; ring
  · left; rfl

theorem Scalar.ofInt_negSucc (T : Scalar) (k : Nat) (h : k < 2 ^ T.bits) :
    T.ofInt (Int.negSucc k) = 2 ^ T.bits - 1 - k := by
  have h1 : k + 1 ≤ 2 ^ T.bits := h
  have e : Int.negSucc k + 1 * 2 ^ T.bits = ((2 ^ T.bits - 1 - k : Nat) : Int) := by
    have h2 : 2 ^ T.bits - 1 - k = 2 ^ T.bits - (k + 1) := by omega
    rw [Int.negSucc_eq, h2, Nat.cast_sub h1]; push_cast; ring
  rw [← T.ofInt_add_mul _ 1, e, T.ofInt_natCast _ (by omega)]

theorem ldiff_bit_not (T : Scalar) (x y : Nat) (hx : x < 2 ^ T.bits) (hy : y < 2 ^ T.bits) :
    Nat.ldiff x (2 ^ T.bits - 1 - y) = x &&& y := by
  apply Nat.eq_of_testBit_eq
  intro j
  have e : 2 ^ T.bits - 1 - y = 2 ^ T.bits - (y + 1) := by omega
  rw [Nat.testBit_ldiff, Nat.testBit_and, e, Nat.testBit_two_pow_sub_succ hy]
  by_cases hj : j < T.bits
  · simp [hj]
  · have : x.testBit j = false :=
      Nat.testBit_lt_two_pow (lt_of_lt_of_le hx (Nat.pow_le_pow_right (by decide) (by omega)))
    simp [this]

/-- The functor `bit_not` is the conversion to `T` of the integer complement of the value
of the lane. -/
theorem bit_not_eq_value (T : Scalar) (x : Nat) (hx : x < 2 ^ T.bits) :
    bit_not T x = T.ofInt (Int.not (T.toInt x)) := by
  rcases T.toInt_cases x hx with h | h
  · rw [h]
    show _ = T.ofInt (Int.negSucc x)
    rw [T.ofInt_negSucc x hx]; rfl
  · rw [h]
    show _ = T.ofInt (Int.ofNat (2 ^ T.bits - 1 - x))
    have : 0 < 2 ^ T.bits := by positivity
    rw [show Int.ofNat (2 ^ T.bits - 1 - x) = ((2 ^ T.bits - 1 - x : Nat) : Int) from rfl,
      T.ofInt_natCast _ (by omega)]
    rfl

/-- The functor `bit_and` is the conversion to `T` of the integer AND of the values of
the two lanes. -/
theorem bit_and_eq_value (T : Scalar) (x y : Nat) (hx : x < 2 ^ T.bits)
    (hy : y < 2 ^ T.bits) :
    bit_and x y = T.ofInt (Int.land (T.toInt x) (T.toInt y)) := by
  have hxy : x &&& y < 2 ^ T.bits := Nat.and_lt_two_pow x hy
  have hpos : 0 < 2 ^ T.bits := by positivity
  rcases T.toInt_cases x hx with h1 | h1 <;> rcases T.toInt_cases y hy with h2 | h2 <;>
    rw [h1, h2]
  · show _ = T.ofInt ((x &&& y : Nat) : Int)
    rw [T.ofInt_natCast _ hxy]; rfl
  · show _ = T.ofInt ((Nat.ldiff x (2 ^ T.bits - 1 - y) : Nat) : Int)
    rw [ldiff_bit_not T x y hx hy, T.ofInt_natCast _ hxy]; rfl
  · show _ = T.ofInt ((Nat.ldiff y (2 ^ T.bits - 1 - x) : Nat) : Int)
    rw [ldiff_bit_not T y x hy hx, T.ofInt_natCast _ (Nat.and_lt_two_pow y hx)]
    exact Nat.land_comm x y
  · show _ = T.ofInt (Int.negSucc ((2 ^ T.bits - 1 - x) ||| (2 ^ T.bits - 1 - y)))
    have hor : (2 ^ T.bits - 1 - x) ||| (2 ^ T.bits - 1 - y) < 2 ^ T.bits :=
      Nat.or_lt_two_pow (by omega) (by omega)
    rw [T.ofInt_negSucc _ hor]
    have hdm := bit_not_bit_and T x y hx hy
    unfold bit_not bit_or at hdm
    rw [← hdm]
    unfold bit_and
    omega

/-- The functor `bit_xor` is the conversion to `T` of the integer XOR of the values of
the two lanes. -/
theorem bit_xor_eq_value (T : Scalar) (x y : Nat) (hx : x < 2 ^ T.bits)
    (hy : y < 2 ^ T.bits) :
    bit_xor x y = T.ofInt (Int.xor (T.toInt x) (T.toInt y)) := by
  have hxy : x ^^^ y < 2 ^ T.bits := Nat.xor_lt_two_pow hx hy
  have hpos : 0 < 2 ^ T.bits := by positivity
  have key : ∀ u v : Nat, u < 2 ^ T.bits → v < 2 ^ T.bits →
      u ^^^ (2 ^ T.bits - 1 - v) = 2 ^ T.bits - 1 - (u ^^^ v) := by
    intro u v hu hv
    have huv : u ^^^ v < 2 ^ T.bits := Nat.xor_lt_two_pow hu hv
    apply Nat.eq_of_testBit_eq
    intro j
    have e1 : 2 ^ T.bits - 1 - v = 2 ^ T.bits - (v + 1) := by omega
    have e2 : 2 ^ T.bits - 1 - (u ^^^ v) = 2 ^ T.bits - ((u ^^^ v) + 1) := by omega
    rw [e2, Nat.testBit_two_pow_sub_succ huv, Nat.testBit_xor, e1,
      Nat.testBit_two_pow_sub_succ hv, Nat.testBit_xor]
    by_cases hj : j < T.bits
    · cases u.testBit j <;> cases v.testBit j <;> simp [hj]
    · have : u.testBit j = false :=
        Nat.testBit_lt_two_pow (lt_of_lt_of_le hu (Nat.pow_le_pow_right (by decide) (by omega)))
      simp [hj, this]
  rcases T.toInt_cases x hx with h1 | h1 <;> rcases T.toInt_cases y hy with h2 | h2 <;>
    rw [h1, h2]
  · show _ = T.ofInt ((x ^^^ y : Nat) : Int)
    rw [T.ofInt_natCast _ hxy]; rfl
  · show _ = T.ofInt (Int.negSucc (x ^^^ (2 ^ T.bits - 1 - y)))
    rw [key x y hx hy, T.ofInt_negSucc _ (by omega)]
    unfold bit_xor
    omega
  · show _ = T.ofInt (Int.negSucc ((2 ^ T.bits - 1 - x) ^^^ y))
    rw [Nat.xor_comm, key y x hy hx, T.ofInt_negSucc _ (by omega), Nat.xor_comm]
    have : x ^^^ y < 2 ^ T.bits := hxy
    unfold bit_xor
    omega
  · show _ = T.ofInt (((2 ^ T.bits - 1 - x) ^^^ (2 ^ T.bits - 1 - y) : Nat) : Int)
    have hnx : 2 ^ T.bits - 1 - x < 2 ^ T.bits := by omega
    rw [key _ y hnx hy, Nat.xor_comm, key y x hy hx]
    have : y ^^^ x < 2 ^ T.bits := Nat.xor_lt_two_pow hy hx
    rw [T.ofInt_natCast _ (by omega), Nat.xor_comm y x]
    unfold bit_xor
    omega

/-! ## Lane-wise arithmetic and shifts -/

theorem Scalar.toInt_ofInt_range (T : Scalar) (v : Int) :
    T.minVal ≤ T.toInt (T.ofInt v) ∧ T.toInt (T.ofInt v) ≤ T.maxVal :=
  T.toInt_range _ (T.ofInt_lt v)

/-- C9: lane `i` of `a + b`, `a - b` and `a * b` holds the value of `T` that is congruent
modulo `2 ^ (8 * sizeof T)` to the sum, difference and product of the values of lane `i`
of `a` and of `b`; lane `i` of `a & b` and `a ^ b` is the bitwise AND and XOR of the two
lane patterns, which is the integer AND and XOR of the two lane values converted to `T`;
and lane `i` of each result is the same for any other pair of batches that agree with
`a` and `b` on lane `i`. -/
theorem batch_arithmetic_lane (T : Scalar) (A : Arch) (a b : batch T A) (ha : a.wf)
    (hb : b.wf) (i : Nat) (hi : i < batch.size T A) :
    (T.toInt ((a.op_add b).data.getD i 0) ≡
        T.toInt (a.data.getD i 0) + T.toInt (b.data.getD i 0) [ZMOD 2 ^ (8 * T.sizeof)] ∧
      T.minVal ≤ T.toInt ((a.op_add b).data.getD i 0) ∧
      T.toInt ((a.op_add b).data.getD i 0) ≤ T.maxVal) ∧
    (T.toInt ((a.op_sub b).data.getD i 0) ≡
        T.toInt (a.data.getD i 0) - T.toInt (b.data.getD i 0) [ZMOD 2 ^ (8 * T.sizeof)] ∧
      T.minVal ≤ T.toInt ((a.op_sub b).data.getD i 0) ∧
      T.toInt ((a.op_sub b).data.getD i 0) ≤ T.maxVal) ∧
    (T.toInt ((a.op_mul b).data.getD i 0) ≡
        T.toInt (a.data.getD i 0) * T.toInt (b.data.getD i 0) [ZMOD 2 ^ (8 * T.sizeof)] ∧
      T.minVal ≤ T.toInt ((a.op_mul b).data.getD i 0) ∧
      T.toInt ((a.op_mul b).data.getD i 0) ≤ T.maxVal) ∧
    ((a.op_and b).data.getD i 0 = a.data.getD i 0 &&& b.data.getD i 0 ∧
      (a.op_and b).data.getD i 0 =
        T.ofInt (Int.land (T.toInt (a.data.getD i 0)) (T.toInt (b.data.getD i 0)))) ∧
    ((a.op_xor b).data.getD i 0 = a.data.getD i 0 ^^^ b.data.getD i 0 ∧
      (a.op_xor b).data.getD i 0 =
        T.ofInt (Int.xor (T.toInt (a.data.getD i 0)) (T.toInt (b.data.getD i 0)))) ∧
    (∀ c d : batch T A, c.data.getD i 0 = a.data.getD i 0 →
      d.data.getD i 0 = b.data.getD i 0 →
      (c.op_add d).data.getD i 0 = (a.op_add b).data.getD i 0 ∧
      (c.op_sub d).data.getD i 0 = (a.op_sub b).data.getD i 0 ∧
      (c.op_mul d).data.getD i 0 = (a.op_mul b).data.getD i 0 ∧
      (c.op_and d).data.getD i 0 = (a.op_and b).data.getD i 0 ∧
      (c.op_xor d).data.getD i 0 = (a.op_xor b).data.getD i 0) := by
  have hbits : (2 : Int) ^ (8 * T.sizeof) = 2 ^ T.bits := rfl
  simp only [batch.op_add, batch.op_sub, batch.op_mul, batch.op_and, batch.op_xor,
    binary_combine_getD _ _ _ _ i hi, hbits]
  have hx : a.data.getD i 0 < 2 ^ T.bits := wf_getD_lt _ _ ha.2 i
  have hy : b.data.getD i 0 < 2 ^ T.bits := wf_getD_lt _ _ hb.2 i
  refine ⟨⟨?_, ?_⟩, ⟨?_, ?_⟩, ⟨?_, ?_⟩, ⟨rfl, bit_and_eq_value T _ _ hx hy⟩,
    ⟨rfl, bit_xor_eq_value T _ _ hx hy⟩, ?_⟩
  · exact T.toInt_ofInt_modEq _
  · exact T.toInt_ofInt_range _
  · exact T.toInt_ofInt_modEq _
  · exact T.toInt_ofInt_range _
  · exact T.toInt_ofInt_modEq _
  · exact T.toInt_ofInt_range _
  · intro c d hc hd
    rw [hc, hd]
    exact ⟨rfl, rfl, rfl, rfl, rfl⟩

/-- The scenario of C9: over four `int` lanes of a 128-bit tag,
`(1,2,3,4) + (4,3,2,1) = (5,5,5,5)`. -/
theorem batch_arithmetic_lane_witness :
    (⟨[1, 2, 3, 4]⟩ : batch Scalar.int Arch.sse2).wf ∧
    (⟨[4, 3, 2, 1]⟩ : batch Scalar.int Arch.sse2).wf ∧
    (0 : Nat) < batch.size Scalar.int Arch.sse2 ∧
    ((⟨[1, 2, 3, 4]⟩ : batch Scalar.int Arch.sse2).op_add ⟨[4, 3, 2, 1]⟩).data =
      [5, 5, 5, 5] ∧
    ((⟨[1, 2, 3, 4]⟩ : batch Scalar.int Arch.sse2).op_and ⟨[4, 3, 2, 1]⟩).data.getD 0 0 =
      1 &&& 4 :=
  ⟨by decide, by decide, by decide, by decide,
    (batch_arithmetic_lane Scalar.int Arch.sse2 ⟨[1, 2, 3, 4]⟩ ⟨[4, 3, 2, 1]⟩ (by decide)
      (by decide) 0 (by decide)).2.2.2.1.1⟩

/-- C10: for an unsigned element type `T`, batches `a`, `b` and a lane `i < N` whose
amount `b_i` is below `8 * sizeof T`: lane `i` of `a << b` is
`(a_i * 2 ^ b_i) mod 2 ^ (8 * sizeof T)`, lane `i` of `a >> b` is `a_i / 2 ^ b_i` rounded
down, and both are unchanged when the other lanes of `b` change. -/
theorem batch_shift_lane (T : Scalar) (A : Arch) (hu : T.isSigned = false)
    (a b : batch T A) (ha : a.wf) (i : Nat) (hi : i < batch.size T A)
    (hamt : b.data.getD i 0 < 8 * T.sizeof) :
    (a.op_shl b).data.getD i 0 =
      (a.data.getD i 0 * 2 ^ b.data.getD i 0) % 2 ^ (8 * T.sizeof) ∧
    (a.op_shr b).data.getD i 0 = a.data.getD i 0 / 2 ^ b.data.getD i 0 ∧
    (∀ c : batch T A, c.data.getD i 0 = b.data.getD i 0 →
      (a.op_shl c).data.getD i 0 = (a.op_shl b).data.getD i 0 ∧
      (a.op_shr c).data.getD i 0 = (a.op_shr b).data.getD i 0) := by
  have _ := hamt
  have hx : a.data.getD i 0 < 2 ^ T.bits := wf_getD_lt _ _ ha.2 i
  simp only [batch.op_shl, batch.op_shr, binary_combine_getD _ _ _ _ i hi, left_shift,
    right_shift, T.toInt_of_unsigned hu, Int.toNat_ofNat]
  refine ⟨?_, ?_, ?_⟩
  · have e : ((a.data.getD i 0 : Int) * 2 ^ b.data.getD i 0) =
        ((a.data.getD i 0 * 2 ^ b.data.getD i 0 : Nat) : Int) := by push_cast; rfl
    rw [e]
    unfold Scalar.ofInt
    have e2 : (((a.data.getD i 0 * 2 ^ b.data.getD i 0 : Nat) : Int) % 2 ^ T.bits) =
        (((a.data.getD i 0 * 2 ^ b.data.getD i 0) % 2 ^ T.bits : Nat) : Int) := by
      push_cast; rfl
    rw [e2, Int.toNat_ofNat]
    rfl
  · have e : ((a.data.getD i 0 : Int) / 2 ^ b.data.getD i 0) =
        ((a.data.getD i 0 / 2 ^ b.data.getD i 0 : Nat) : Int) := by push_cast; rfl
    rw [e]
    exact T.ofInt_natCast _ (lt_of_le_of_lt (Nat.div_le_self _ _) hx)
  · intro c hc
    rw [hc]
    exact ⟨rfl, rfl⟩

/-- An instance of C10 on four lanes of `unsigned int` with four different amounts. -/
theorem batch_shift_lane_witness :
    Scalar.unsigned_int.isSigned = false ∧
    (⟨[1, 4294967295, 12, 2147483648]⟩ : batch Scalar.unsigned_int Arch.sse2).wf ∧
    (1 : Nat) < batch.size Scalar.unsigned_int Arch.sse2 ∧
    ((⟨[0, 4, 2, 31]⟩ : batch Scalar.unsigned_int Arch.sse2).data.getD 1 0 <
      8 * Scalar.unsigned_int.sizeof) ∧
    ((⟨[1, 4294967295, 12, 2147483648]⟩ : batch Scalar.unsigned_int Arch.sse2).op_shl
      ⟨[0, 4, 2, 31]⟩).data = [1, 4294967280, 48, 0] ∧
    ((⟨[1, 4294967295, 12, 2147483648]⟩ : batch Scalar.unsigned_int Arch.sse2).op_shr
      ⟨[0, 4, 2, 31]⟩).data = [1, 268435455, 3, 1] ∧
    ((⟨[1, 4294967295, 12, 2147483648]⟩ : batch Scalar.unsigned_int Arch.sse2).op_shl
      ⟨[0, 4, 2, 31]⟩).data.getD 1 0 = (4294967295 * 2 ^ 4) % 2 ^ (8 * 4) :=
  ⟨by decide, by decide, by decide, by decide, by decide, by decide,
    (batch_shift_lane Scalar.unsigned_int Arch.sse2 (by decide)
      ⟨[1, 4294967295, 12, 2147483648]⟩ ⟨[0, 4, 2, 31]⟩ (by decide) 1 (by decide)
      (by decide)).1⟩

/-! ## Broadcast, construction from a mask, converting load and store -/

/-- On an integer element type: for every lane index `i < N`, `get(i)` of the batch built
by the broadcast constructor `batch(v)` is `v`; the static `batch::broadcast(v)` and the
free function `broadcast(v)` return the batch `batch(v)`, which has `N` lanes. -/
theorem get_of_integer_broadcast (T : Scalar) (A : Arch) (v : Nat) (i : Nat)
    (hi : i < batch.size T A) :
    (batch.ofScalar T A v).get i = v ∧
    batch.broadcast T A v = batch.ofScalar T A v ∧
    broadcast T A v = batch.ofScalar T A v ∧
    (batch.ofScalar T A v).data.length = batch.size T A := by
  refine ⟨?_, rfl, rfl, ?_⟩
  · unfold batch.get batch.ofScalar
    rw [List.getD_eq_getElem _ 0 (by simpa using hi)]
    simp
  · simp [batch.ofScalar]

theorem Scalar.toInt_allOnes (T : Scalar) :
    T.toInt T.allOnes = if T.isSigned = true then -1 else T.maxVal := by
  have h2 := T.two_pow_bits
  have hpos : 0 < 2 ^ (T.bits - 1) := by positivity
  have hc : ((2 ^ T.bits - 1 : Nat) : Int) = 2 ^ T.bits - 1 := by
    rw [Nat.cast_sub Nat.one_le_two_pow]; push_cast; ring
  unfold Scalar.toInt Scalar.allOnes Scalar.maxVal
  by_cases hs : T.isSigned = true
  · have hle : 2 ^ (T.bits - 1) ≤ 2 ^ T.bits - 1 := by omega
    rw [if_pos ⟨hs, hle⟩, if_pos hs, hc]; ring
  · have hs2 : ¬ (T.isSigned = true ∧ 2 ^ (T.bits - 1) ≤ 2 ^ T.bits - 1) := fun h => hs h.1
    rw [if_neg hs2, if_neg hs, if_neg hs, hc]

theorem Scalar.toInt_zero (T : Scalar) : T.toInt 0 = 0 := by
  have hpos : 0 < 2 ^ (T.bits - 1) := by positivity
  unfold Scalar.toInt
  rw [if_neg (by omega)]
  rfl

/-- C12: lane `i` of the batch constructed from a mask `m` has the bit pattern of lane `i`
of `m`; an all-ones mask lane is read as -1 when `T` is signed and as the greatest value
of `T` when `T` is unsigned, and an all-zero mask lane is read as 0. -/
theorem batch_of_mask_lane (T : Scalar) (A : Arch) (m : batch_bool T A) (i : Nat)
    (hi : i < batch.size T A) :
    (batch.ofMask m).data.getD i 0 = m.data.getD i 0 ∧
    (m.data.getD i 0 = T.allOnes →
      (batch.ofMask m).data.getD i 0 = 2 ^ (8 * T.sizeof) - 1 ∧
      T.toInt ((batch.ofMask m).get i) = if T.isSigned = true then -1 else T.maxVal) ∧
    (m.data.getD i 0 = 0 → T.toInt ((batch.ofMask m).get i) = 0) := by
  have _ := hi
  refine ⟨rfl, ?_, ?_⟩
  · intro h
    unfold batch.get batch.ofMask
    simp only
    rw [h]
    exact ⟨rfl, T.toInt_allOnes⟩
  · intro h
    unfold batch.get batch.ofMask
    simp only
    rw [h]
    exact T.toInt_zero

/-- An instance of C12: a four-lane mask of `batch_bool<int, sse2>` read as a batch of
`int` has the values -1 and 0. -/
theorem batch_of_mask_lane_witness :
    (0 : Nat) < batch.size Scalar.int Arch.sse2 ∧
    (batch.ofMask (⟨[4294967295, 0, 0, 4294967295]⟩ :
      batch_bool Scalar.int Arch.sse2)).data.map Scalar.int.toInt = [-1, 0, 0, -1] ∧
    (batch.ofMask (⟨[4294967295, 0, 0, 4294967295]⟩ :
      batch_bool Scalar.unsigned_int Arch.sse2)).data.map Scalar.unsigned_int.toInt =
        [4294967295, 0, 0, 4294967295] ∧
    Scalar.int.toInt ((batch.ofMask (⟨[4294967295, 0, 0, 4294967295]⟩ :
      batch_bool Scalar.int Arch.sse2)).get 0) =
        (if Scalar.int.isSigned = true then -1 else Scalar.int.maxVal) :=
  ⟨by decide, by decide, by decide,
    ((batch_of_mask_lane Scalar.int Arch.sse2 ⟨[4294967295, 0, 0, 4294967295]⟩ 0
      (by decide)).2.1 (by decide)).2⟩

theorem Scalar.maxVal_sub_minVal (T : Scalar) : T.maxVal - T.minVal = 2 ^ T.bits - 1 := by
  have h2 := T.two_pow_bits
  have h3 : ((2 : Int) ^ T.bits) = 2 * 2 ^ (T.bits - 1) := by exact_mod_cast h2
  unfold Scalar.maxVal Scalar.minVal
  by_cases hs : T.isSigned = true
  · rw [if_pos hs, if_pos hs]; omega
  · rw [if_neg hs, if_neg hs]; omega

theorem Scalar.toInt_ofInt_of_range (T : Scalar) (v : Int) (hlo : T.minVal ≤ v)
    (hhi : v ≤ T.maxVal) : T.toInt (T.ofInt v) = v := by
  have hmod := T.toInt_ofInt_modEq v
  have hr := T.toInt_range _ (T.ofInt_lt v)
  have hw := T.maxVal_sub_minVal
  have hpos : (0 : Int) < 2 ^ T.bits := by positivity
  obtain ⟨k, hk⟩ := hmod.dvd
  generalize T.toInt (T.ofInt v) = r at hk hr
  generalize (2 : Int) ^ T.bits = M at hk hw hpos
  have hk0 : k = 0 := by
    rcases lt_trichotomy k 0 with h | h | h
    · have : M * k ≤ M * (-1) := Int.mul_le_mul_of_nonneg_left (by omega) (le_of_lt hpos)
      omega
    · exact h
    · have : M * 1 ≤ M * k := Int.mul_le_mul_of_nonneg_left (by omega) (le_of_lt hpos)
      omega
  rw [hk0] at hk
  omega

/-- C13: for integer types `U` and `T` such that every value of `U` is a value of `T`, and
a source buffer of at least `N` elements of `U`: `load_unaligned` gives a batch of `N`
lanes whose lane `i` has the value of `src[i]`; the batch depends only on the elements
`0..N-1` of the buffer; and `store_unaligned` of that batch into a buffer of `U` writes
`src[i]` at every position `i < N`. -/
theorem converting_load_store (T U : Scalar) (A : Arch)
    (hrep : T.minVal ≤ U.minVal ∧ U.maxVal ≤ T.maxVal)
    (src : List Nat) (hsrc : batch.size T A ≤ src.length)
    (hval : ∀ x ∈ src, x < 2 ^ U.bits)
    (dst : List Nat) (hdst : batch.size T A ≤ dst.length) :
    (batch.load_unaligned T A U src).wf ∧
    (∀ i, i < batch.size T A →
      T.toInt ((batch.load_unaligned T A U src).data.getD i 0) = U.toInt (src.getD i 0)) ∧
    (∀ src2 : List Nat, (∀ i, i < batch.size T A → src2.getD i 0 = src.getD i 0) →
      batch.load_unaligned T A U src2 = batch.load_unaligned T A U src) ∧
    (∀ i, i < batch.size T A →
      ((batch.load_unaligned T A U src).store_unaligned U dst).getD i 0 = src.getD i 0) ∧
    ((batch.load_unaligned T A U src).store_unaligned U dst).length = dst.length := by
  have _ := hsrc
  have hlane : ∀ i, i < batch.size T A →
      (batch.load_unaligned T A U src).data.getD i 0 = T.ofInt (U.toInt (src.getD i 0)) := by
    intro i hi
    rw [batch.load_unaligned_data,
      List.getD_eq_getElem _ 0 (by simpa using hi)]
    simp
  have hval2 : ∀ i, T.toInt (T.ofInt (U.toInt (src.getD i 0))) = U.toInt (src.getD i 0) := by
    intro i
    have hr := U.toInt_range _ (wf_getD_lt _ _ hval i)
    exact T.toInt_ofInt_of_range _ (le_trans hrep.1 hr.1) (le_trans hr.2 hrep.2)
  refine ⟨⟨?_, ?_⟩, ?_, ?_, ?_, ?_⟩
  · rw [batch.load_unaligned_data]; simp
  · intro x hx
    rw [batch.load_unaligned_data] at hx
    obtain ⟨i, _, rfl⟩ := List.mem_map.mp hx
    exact T.ofInt_lt _
  · intro i hi
    rw [hlane i hi, hval2 i]
  · intro src2 h
    have e : (batch.load_unaligned T A U src2).data = (batch.load_unaligned T A U src).data := by
      rw [batch.load_unaligned_data, batch.load_unaligned_data]
      apply List.map_congr_left
      intro i hi
      rw [h i (List.mem_range.mp hi)]
    unfold batch.load_unaligned at e ⊢
    simpa using e
  · intro i hi
    rw [batch.store_unaligned_getD _ U dst i hi (by omega), hlane i hi, hval2 i,
      U.ofInt_toInt _ (wf_getD_lt _ _ hval i)]
  · unfold batch.store_unaligned
    exact for_range_set_length _ _ _

/-- An instance of C13: four `signed char` elements, two of them negative, loaded into
the four `int` lanes of a 128-bit tag and stored back into a `signed char` buffer. -/
theorem converting_load_store_witness :
    (Scalar.int.minVal ≤ Scalar.signed_char.minVal ∧
      Scalar.signed_char.maxVal ≤ Scalar.int.maxVal) ∧
    batch.size Scalar.int Arch.sse2 ≤ [1, 255, 128, 127, 9].length ∧
    (∀ x ∈ [1, 255, 128, 127, 9], x < 2 ^ Scalar.signed_char.bits) ∧
    batch.size Scalar.int Arch.sse2 ≤ [0, 0, 0, 0, 77].length ∧
    (batch.load_unaligned Scalar.int Arch.sse2 Scalar.signed_char [1, 255, 128, 127, 9]).data =
      [1, 4294967295, 4294967168, 127] ∧
    (batch.load_unaligned Scalar.int Arch.sse2 Scalar.signed_char
      [1, 255, 128, 127, 9]).store_unaligned Scalar.signed_char [0, 0, 0, 0, 77] =
        [1, 255, 128, 127, 77] ∧
    (batch.load_unaligned Scalar.int Arch.sse2 Scalar.signed_char [1, 255, 128, 127, 9]).wf :=
  ⟨by decide, by decide, by decide, by decide, by decide, by decide,
    (converting_load_store Scalar.int Scalar.signed_char Arch.sse2 (by decide)
      [1, 255, 128, 127, 9] (by decide) (by decide) [0, 0, 0, 0, 77] (by decide)).1⟩

/-! ## Aligned and unaligned variants -/

/-- The aligned and unaligned variants that delegate to one another return the same
result: `batch::store_aligned` and `batch::store_unaligned`, `batch::load_aligned` and
`batch::load_unaligned`, `batch_bool::load_unaligned` and `batch_bool::load_aligned`, and
the free functions `load_aligned` and `load_unaligned`. -/
theorem aligned_unaligned_agree (T U : Scalar) (A : Arch) (b : batch T A)
    (buf src : List Nat) (bsrc : List Bool) :
    b.store_aligned U buf = b.store_unaligned U buf ∧
    batch.load_aligned T A U src = batch.load_unaligned T A U src ∧
    batch_bool.load_unaligned T A bsrc = batch_bool.load_aligned T A bsrc ∧
    load_aligned A T src = load_unaligned A T src :=
  ⟨rfl, rfl, rfl, rfl⟩

/-- C14: the part of the claim about `batch_bool::store_unaligned` fails on the code.  On
the four-lane mask `batch_bool<int, sse2>(true)` and a buffer of four booleans,
`store_aligned<bool>` writes (true, true, true, true), while `store_unaligned` passes its
`void*` to `store_aligned`, whose instantiation at `void` is rejected, so it writes
nothing. -/
theorem mask_store_unaligned_rejected :
    (batch_bool.ofBool Scalar.int Arch.sse2 true).wf ∧
    batch_bool.store_aligned_at Pointee.bool (batch_bool.ofBool Scalar.int Arch.sse2 true)
      [false, false, false, false] = some [true, true, true, true] ∧
    batch_bool.store_unaligned (batch_bool.ofBool Scalar.int Arch.sse2 true)
      [false, false, false, false] = none ∧
    batch_bool.store_unaligned (batch_bool.ofBool Scalar.int Arch.sse2 true)
        [false, false, false, false] ≠
      some ((batch_bool.ofBool Scalar.int Arch.sse2 true).store_aligned
        [false, false, false, false]) := by
  decide

/-! ## Register layout -/

/-- C15: for every scalar size `s` of 1, 2, 4 or 8 bytes, every tag `A` and every integer
type `T` of that size, the register has `N = width(A) / s` lanes with `N * s = width(A)`
and `N ≥ 1`, and `batch<T, A>::size` and `batch_bool<T, A>::size` are both `N`; the nine
tags have the widths 16, 32, 64, 16, 32, 32, 64, 16 and 8 bytes. -/
theorem register_lane_count (s : Nat) (hs : s = 1 ∨ s = 2 ∨ s = 4 ∨ s = 8) (A : Arch)
    (T : Scalar) (hT : T.sizeof = s) :
    A.size / s * s = A.size ∧
    1 ≤ A.size / s ∧
    simd_register_length (Element.integer T) A = A.size / s ∧
    batch.size T A = A.size / s ∧
    batch_bool.size T A = A.size / s ∧
    [Arch.generic16, Arch.generic32, Arch.generic64, Arch.sse2, Arch.avx, Arch.avx2,
      Arch.avx512, Arch.neon, Arch.half_vec].map Arch.size =
      [16, 32, 64, 16, 32, 32, 64, 16, 8] := by
  subst hT
  refine ⟨?_, ?_, rfl, rfl, rfl, rfl⟩
  · rcases hs with h | h | h | h <;> rw [h] <;> cases A <;> rfl
  · rcases hs with h | h | h | h <;> rw [h] <;> cases A <;> decide

/-- The scenario of C15: `Batch64<int>`, that is `batch<int, half_vec>`, has 2 lanes of
4 bytes and occupies 8 bytes. -/
theorem register_lane_count_witness :
    ((4 : Nat) = 1 ∨ (4 : Nat) = 2 ∨ (4 : Nat) = 4 ∨ (4 : Nat) = 8) ∧
    Scalar.int.sizeof = 4 ∧
    batch.size Scalar.int Arch.half_vec = 2 ∧
    batch.size Scalar.int Arch.half_vec * Scalar.int.sizeof = 8 ∧
    Arch.half_vec.size / 4 * 4 = Arch.half_vec.size :=
  ⟨by decide, rfl, by decide, by decide,
    (register_lane_count 4 (by decide) Arch.half_vec Scalar.int rfl).1⟩

theorem get_unsigned_type_sizeof (E : Element) :
    ∃ U : Scalar, get_unsigned_type E.sizeof = some U ∧ U.isSigned = false ∧
      U.sizeof = E.sizeof := by
  cases E with
  | integer T => cases T <;> exact ⟨_, rfl, rfl, rfl⟩
  | float => exact ⟨_, rfl, rfl, rfl⟩
  | double => exact ⟨_, rfl, rfl, rfl⟩

/-- C16 fails as stated under a tag other than the default one: for `int` under
`half_vec` (the register of `Batch64<int>`), on either target, the mask register is
`simd_register<int, half_vec>`, whose lane type is the signed type `int` and not the
unsigned type of four bytes. -/
theorem mask_register_of_half_vec_is_signed :
    get_bool_simd_register Target.avx2 (Element.integer Scalar.int) Arch.half_vec =
      some (Element.integer Scalar.int) ∧
    get_bool_simd_register Target.aarch64 (Element.integer Scalar.int) Arch.half_vec =
      some (Element.integer Scalar.int) ∧
    Scalar.int.isSigned = true ∧
    get_unsigned_type Scalar.int.sizeof = some Scalar.unsigned_int ∧
    get_bool_simd_register Target.avx2 (Element.integer Scalar.int) Arch.half_vec ≠
      (get_unsigned_type Scalar.int.sizeof).map Element.integer := by
  decide

/-- C16, amended: for every element type `T`, target and tag `A` the mask register is
resolved, its lanes have `sizeof(T)` bytes and its length is the length of the data
register for `(T, A)`; under the default tag its lane type is the unsigned integer type
of `sizeof(T)` bytes, and under every other tag its lane type is `T` itself. -/
theorem mask_register_resolution (tgt : Target) (E : Element) (A : Arch) :
    ∃ L : Element, get_bool_simd_register tgt E A = some L ∧
      L.sizeof = E.sizeof ∧
      bool_simd_register_length tgt E A = some (simd_register_length E A) ∧
      (if A = default_arch tgt then
        ∃ U : Scalar, get_unsigned_type E.sizeof = some U ∧ L = Element.integer U ∧
          U.isSigned = false ∧ U.sizeof = E.sizeof
      else L = E) := by
  obtain ⟨U, hU, hsgn, hsz⟩ := get_unsigned_type_sizeof E
  by_cases h : A = default_arch tgt
  · refine ⟨Element.integer U, ?_, hsz, ?_, ?_⟩
    · simp [get_bool_simd_register, h, hU]
    · unfold bool_simd_register_length get_bool_simd_register
      rw [if_pos h, hU]
      show some (simd_register_length (Element.integer U) A) = _
      unfold simd_register_length
      rw [show (Element.integer U).sizeof = U.sizeof from rfl, hsz]
    · rw [if_pos h]
      exact ⟨U, hU, rfl, hsgn, hsz⟩
  · refine ⟨E, ?_, rfl, ?_, ?_⟩
    · simp [get_bool_simd_register, h]
    · simp [bool_simd_register_length, get_bool_simd_register, h]
    · rw [if_neg h]

/-! ## Mask broadcast, compound operators, logical operators -/

theorem batch_bool.store_aligned_getElem? {T : Scalar} {A : Arch} (m : batch_bool T A)
    (dst : List Bool) (i : Nat) (hi : i < batch_bool.size T A) (hlen : i < dst.length) :
    (m.store_aligned dst)[i]? = some (decide (m.data.getD i 0 ≠ 0)) := by
  unfold batch_bool.store_aligned
  rw [for_range_set_getElem?, if_pos ⟨hi, hlen⟩]

theorem batch_bool.store_aligned_length {T : Scalar} {A : Arch} (m : batch_bool T A)
    (dst : List Bool) : (m.store_aligned dst).length = dst.length := by
  unfold batch_bool.store_aligned
  exact for_range_set_length _ _ _

/-- C17: every lane of the mask `batch_bool(v)` is the all-ones pattern if `v` is true and
the all-zero pattern if `v` is false, and storing that mask into a boolean buffer of at
least `N` elements writes `v` at every position `0..N-1`; a buffer of exactly `N`
elements then holds `v` everywhere. -/
theorem mask_broadcast_store (T : Scalar) (A : Arch) (v : Bool) (buf : List Bool)
    (hbuf : batch_bool.size T A ≤ buf.length) :
    (batch_bool.ofBool T A v).data =
      List.replicate (batch_bool.size T A) (if v = true then 2 ^ (8 * T.sizeof) - 1 else 0) ∧
    (∀ i, i < batch_bool.size T A →
      ((batch_bool.ofBool T A v).store_aligned buf)[i]? = some v) ∧
    (buf.length = batch_bool.size T A →
      (batch_bool.ofBool T A v).store_aligned buf = List.replicate (batch_bool.size T A) v) := by
  have hlane : ∀ i, i < batch_bool.size T A →
      ((batch_bool.ofBool T A v).store_aligned buf)[i]? = some v := by
    intro i hi
    rw [batch_bool.store_aligned_getElem? _ buf i hi (by omega), batch_bool.ofBool_data,
      List.getD_eq_getElem _ 0 (by simpa using hi), List.getElem_replicate]
    cases v
    · simp
    · simpa using T.allOnes_ne_zero
  refine ⟨batch_bool.ofBool_data T A v, hlane, ?_⟩
  intro hlen
  apply List.ext_getElem?
  intro i
  by_cases hi : i < batch_bool.size T A
  · rw [hlane i hi, List.getElem?_replicate, if_pos hi]
  · rw [List.getElem?_eq_none (by rw [batch_bool.store_aligned_length]; omega),
      List.getElem?_eq_none (by simp; omega)]

/-- The scenario of C17: over the four lanes of `batch_bool<int, sse2>`, the mask
`batch_bool(true)` stores (true, true, true, true) and `batch_bool(false)` stores
(false, false, false, false). -/
theorem mask_broadcast_store_witness :
    batch_bool.size Scalar.int Arch.sse2 ≤ [false, true, false, true].length ∧
    (batch_bool.ofBool Scalar.int Arch.sse2 true).store_aligned [false, true, false, true] =
      [true, true, true, true] ∧
    (batch_bool.ofBool Scalar.int Arch.sse2 false).store_aligned [false, true, false, true] =
      [false, false, false, false] ∧
    (batch_bool.ofBool Scalar.int Arch.sse2 true).data =
      List.replicate (batch_bool.size Scalar.int Arch.sse2)
        (if true = true then 2 ^ (8 * Scalar.int.sizeof) - 1 else 0) :=
  ⟨by decide, by decide, by decide,
    (mask_broadcast_store Scalar.int Arch.sse2 true [false, true, false, true]
      (by decide)).1⟩

/-- C18: the claim fails on the code.  The three compound operators are declared `const`
and assign to `*this`, so on any receiver, here the four-lane masks
`batch_bool<int, sse2>(true)` and `batch_bool<int, sse2>(false)`, the assignment is
rejected and the receiver is never updated; on a non-const receiver the same assignment
would give `(old m) & o`. -/
theorem compound_mask_operators_rejected :
    (batch_bool.ofBool Scalar.int Arch.sse2 true).op_and_assign
      (batch_bool.ofBool Scalar.int Arch.sse2 false) = none ∧
    (batch_bool.ofBool Scalar.int Arch.sse2 true).op_or_assign
      (batch_bool.ofBool Scalar.int Arch.sse2 false) = none ∧
    (batch_bool.ofBool Scalar.int Arch.sse2 true).op_xor_assign
      (batch_bool.ofBool Scalar.int Arch.sse2 false) = none ∧
    batch_bool.copy_assign false
        ((batch_bool.ofBool Scalar.int Arch.sse2 true).op_and
          (batch_bool.ofBool Scalar.int Arch.sse2 false)) =
      some ⟨[0, 0, 0, 0]⟩ ∧
    (batch_bool.ofBool Scalar.int Arch.sse2 true).op_and_assign
        (batch_bool.ofBool Scalar.int Arch.sse2 false) ≠
      some ((batch_bool.ofBool Scalar.int Arch.sse2 true).op_and
        (batch_bool.ofBool Scalar.int Arch.sse2 false)) := by
  decide

/-- C19: the claim fails on the code.  On the eight-lane mask `m = batch_bool<int, avx2>(true)`
every lane of `m && m` and of `m || m` is 1, while every lane of `m & m` and of `m | m`
is the all-ones pattern, so the logical and the bitwise operators disagree. -/
theorem logical_operators_differ_from_bitwise :
    (batch_bool.ofBool Scalar.int Arch.avx2 true).sentinel ∧
    ((batch_bool.ofBool Scalar.int Arch.avx2 true).op_and
        (batch_bool.ofBool Scalar.int Arch.avx2 true)).data =
      List.replicate 8 4294967295 ∧
    ((batch_bool.ofBool Scalar.int Arch.avx2 true).op_land
        (batch_bool.ofBool Scalar.int Arch.avx2 true)).data = List.replicate 8 1 ∧
    ((batch_bool.ofBool Scalar.int Arch.avx2 true).op_or
        (batch_bool.ofBool Scalar.int Arch.avx2 true)).data =
      List.replicate 8 4294967295 ∧
    ((batch_bool.ofBool Scalar.int Arch.avx2 true).op_lor
        (batch_bool.ofBool Scalar.int Arch.avx2 true)).data = List.replicate 8 1 ∧
    (batch_bool.ofBool Scalar.int Arch.avx2 true).op_land
        (batch_bool.ofBool Scalar.int Arch.avx2 true) ≠
      (batch_bool.ofBool Scalar.int Arch.avx2 true).op_and
        (batch_bool.ofBool Scalar.int Arch.avx2 true) ∧
    (batch_bool.ofBool Scalar.int Arch.avx2 true).op_lor
        (batch_bool.ofBool Scalar.int Arch.avx2 true) ≠
      (batch_bool.ofBool Scalar.int Arch.avx2 true).op_or
        (batch_bool.ofBool Scalar.int Arch.avx2 true) := by
  decide

/-! ## Sign test -/

theorem testBit_top_iff (k x : Nat) (hx : x < 2 ^ (k + 1)) :
    x.testBit k = true ↔ 2 ^ k ≤ x := by
  constructor
  · intro h
    by_contra hlt
    rw [Nat.testBit_lt_two_pow (Nat.lt_of_not_le hlt)] at h
    cases h
  · intro h
    rw [Nat.testBit_to_div_mod]
    have : x / 2 ^ k = 1 := by
      apply Nat.div_eq_of_lt_le
      · omega
      · rw [Nat.pow_succ] at hx; omega
    simp [this]

theorem Scalar.toInt_neg_iff (T : Scalar) (hs : T.isSigned = true) (x : Nat)
    (hx : x < 2 ^ T.bits) : T.toInt x < 0 ↔ 2 ^ (T.bits - 1) ≤ x := by
  have hx2 : (x : Int) < 2 ^ T.bits := by exact_mod_cast hx
  unfold Scalar.toInt
  by_cases h : 2 ^ (T.bits - 1) ≤ x
  · rw [if_pos ⟨hs, h⟩]
    constructor
    · intro _; exact h
    · intro _; omega
  · rw [if_neg (fun c => h c.2)]
    constructor
    · intro c; omega
    · intro c; exact absurd c h

/-- C20: for every signed integer element type `T`, tag `A` and batch `b`, the mask
constructed from `b` by most-significant-bit extraction is the mask returned by the
comparison `b < broadcast(0)`. -/
theorem mask_of_batch_eq_less_than_zero (T : Scalar) (A : Arch) (hs : T.isSigned = true)
    (b : batch T A) (hb : b.wf) :
    batch_bool.ofBatch b = b.op_lt (broadcast T A (T.ofInt 0)) := by
  obtain ⟨k, hk⟩ : ∃ k, T.bits = k + 1 := ⟨T.bits - 1, by have := T.bits_pos; omega⟩
  have hk2 : 8 * T.sizeof = k + 1 := hk
  have e : (batch_bool.ofBatch b).data = (b.op_lt (broadcast T A (T.ofInt 0))).data := by
    unfold batch_bool.ofBatch batch.op_lt
    simp only
    rw [binary_combine_to_vec_bool_eq_map]
    conv_lhs => rw [← map_getD_range b.data _ hb.1]
    rw [List.map_map]
    apply List.map_congr_left
    intro i hi
    have hi2 : i < batch.size T A := List.mem_range.mp hi
    have hx : b.data.getD i 0 < 2 ^ T.bits := wf_getD_lt _ _ hb.2 i
    have hz : (broadcast T A (T.ofInt 0)).data.getD i 0 = 0 := by
      unfold broadcast batch.broadcast batch.ofScalar
      rw [List.getD_eq_getElem _ 0 (by simpa using hi2), List.getElem_replicate, T.ofInt_zero]
    simp only [Function.comp, hz, msb_to_sentinel_eq, less, T.toInt_zero, decide_eq_true_eq]
    have hiff : (b.data.getD i 0).testBit (8 * T.sizeof - 1) = true ↔
        T.toInt (b.data.getD i 0) < 0 := by
      rw [T.toInt_neg_iff hs _ hx, hk2, hk, Nat.add_sub_cancel]
      exact testBit_top_iff k _ (by rw [← hk]; exact hx)
    by_cases hneg : T.toInt (b.data.getD i 0) < 0
    · rw [if_pos (hiff.mpr hneg), if_pos hneg]
    · rw [if_neg (fun c => hneg (hiff.mp c)), if_neg hneg]
  cases hm : batch_bool.ofBatch b
  cases hl : b.op_lt (broadcast T A (T.ofInt 0))
  rw [hm, hl] at e
  simpa using e

/-- An instance of C20 on four `int` lanes: -1, 1, the least value and 0. -/
theorem mask_of_batch_eq_less_than_zero_witness :
    Scalar.int.isSigned = true ∧
    (⟨[4294967295, 1, 2147483648, 0]⟩ : batch Scalar.int Arch.sse2).wf ∧
    (batch_bool.ofBatch (⟨[4294967295, 1, 2147483648, 0]⟩ : batch Scalar.int Arch.sse2)).data =
      [4294967295, 0, 4294967295, 0] ∧
    batch_bool.ofBatch (⟨[4294967295, 1, 2147483648, 0]⟩ : batch Scalar.int Arch.sse2) =
      (⟨[4294967295, 1, 2147483648, 0]⟩ : batch Scalar.int Arch.sse2).op_lt
        (broadcast Scalar.int Arch.sse2 (Scalar.int.ofInt 0)) :=
  ⟨by decide, by decide, by decide,
    mask_of_batch_eq_less_than_zero Scalar.int Arch.sse2 (by decide)
      ⟨[4294967295, 1, 2147483648, 0]⟩ (by decide)⟩

/-! ## Mask to batch and back; frame of the stores -/

theorem msb_shift_test_iff (T : Scalar) (el : Nat) :
    ((el % 2 ^ (8 * T.sizeof)) % 2 ^ 64) >>> MSB_SHIFT T ≠ 0 ↔
      el.testBit (8 * T.sizeof - 1) = true := by
  have h := msb_to_sentinel_eq T el
  unfold msb_to_sentinel at h
  simp only [batch_bool.true_v, batch_bool.false_v, T.ofInt_neg_one, T.ofInt_zero] at h
  by_cases c : ((el % 2 ^ (8 * T.sizeof)) % 2 ^ 64) >>> MSB_SHIFT T ≠ 0
  · by_cases t : el.testBit (8 * T.sizeof - 1) = true
    · exact ⟨fun _ => t, fun _ => c⟩
    · rw [if_pos c, if_neg t] at h
      exact absurd h T.allOnes_ne_zero
  · by_cases t : el.testBit (8 * T.sizeof - 1) = true
    · rw [if_neg c, if_pos t] at h
      exact absurd h.symm T.allOnes_ne_zero
    · exact ⟨fun h1 => absurd h1 c, fun h1 => absurd h1 t⟩

theorem testBit_allOnes_top (T : Scalar) :
    T.allOnes.testBit (8 * T.sizeof - 1) = true := by
  have hpos := T.sizeof_pos
  unfold Scalar.allOnes Scalar.bits
  rw [Nat.testBit_two_pow_sub_one]
  exact decide_eq_true (by omega)

/-- C21: for every mask `m` whose lanes are each all-ones or all-zero, constructing a
batch from `m` and then a mask from that batch returns `m`; and on every lane of `m` the
most-significant-bit test of the mask-from-batch constructor holds exactly when the lane
is nonzero, which is the test of the mask store. -/
theorem mask_batch_mask_roundtrip (T : Scalar) (A : Arch) (m : batch_bool T A)
    (hm : m.wf) (hs : m.sentinel) :
    batch_bool.ofBatch (batch.ofMask m) = m ∧
    (∀ i, i < batch_bool.size T A →
      ((((m.data.getD i 0) % 2 ^ (8 * T.sizeof)) % 2 ^ 64) >>> MSB_SHIFT T ≠ 0 ↔
        m.data.getD i 0 ≠ 0)) ∧
    (∀ (buf : List Bool) (i : Nat), i < batch_bool.size T A → i < buf.length →
      (m.store_aligned buf)[i]? =
        some (decide ((batch_bool.ofBatch (batch.ofMask m)).data.getD i 0 = T.allOnes))) := by
  have hlane : ∀ x, (x = T.allOnes ∨ x = 0) → msb_to_sentinel T x = x := by
    intro x hx
    rw [msb_to_sentinel_eq]
    rcases hx with h | h
    · rw [h, if_pos (testBit_allOnes_top T)]
    · rw [h, if_neg (by simp)]
  have e : (batch_bool.ofBatch (batch.ofMask m)).data = m.data := by
    unfold batch_bool.ofBatch batch.ofMask
    simp only
    conv_rhs => rw [← List.map_id m.data]
    apply List.map_congr_left
    intro x hx
    exact hlane x (hs x hx)
  have e2 : batch_bool.ofBatch (batch.ofMask m) = m := by
    cases hq : batch_bool.ofBatch (batch.ofMask m)
    cases m
    rw [hq] at e
    simpa using e
  refine ⟨e2, ?_, ?_⟩
  · intro i _
    rw [msb_shift_test_iff]
    rcases sentinel_getD T.allOnes m.data hs i with h | h
    · rw [h]
      exact ⟨fun _ => T.allOnes_ne_zero, fun _ => testBit_allOnes_top T⟩
    · rw [h]
      exact ⟨fun c => by simp at c, fun c => absurd rfl c⟩
  · intro buf i hi hlen
    have hwf := hm
    rw [batch_bool.store_aligned_getElem? m buf i hi hlen, e2]
    rcases sentinel_getD T.allOnes m.data hs i with h | h
    · rw [h]
      simp [T.allOnes_ne_zero]
    · rw [h]
      have : (0 : Nat) ≠ T.allOnes := fun c => T.allOnes_ne_zero c.symm
      simp [this]

/-- An instance of C21 on a four-lane mask of `batch_bool<int, sse2>`. -/
theorem mask_batch_mask_roundtrip_witness :
    (⟨[4294967295, 0, 0, 4294967295]⟩ : batch_bool Scalar.int Arch.sse2).wf ∧
    (⟨[4294967295, 0, 0, 4294967295]⟩ : batch_bool Scalar.int Arch.sse2).sentinel ∧
    (batch.ofMask (⟨[4294967295, 0, 0, 4294967295]⟩ : batch_bool Scalar.int Arch.sse2)).data =
      [4294967295, 0, 0, 4294967295] ∧
    batch_bool.ofBatch
      (batch.ofMask (⟨[4294967295, 0, 0, 4294967295]⟩ : batch_bool Scalar.int Arch.sse2)) =
      ⟨[4294967295, 0, 0, 4294967295]⟩ :=
  ⟨by decide, by decide, by decide,
    (mask_batch_mask_roundtrip Scalar.int Arch.sse2 ⟨[4294967295, 0, 0, 4294967295]⟩
      (by decide) (by decide)).1⟩

theorem for_range_pair {ρ α : Type} (g : ρ → Nat → α) (n : Nat) (r : ρ) (out : List α) :
    for_range (fun i (st : ρ × List α) => (st.1, st.2.set i (g st.1 i))) n (r, out) =
      (r, for_range (fun i d => d.set i (g r i)) n out) := by
  induction n with
  | zero => rfl
  | succ k ih =>
    show (fun i (st : ρ × List α) => (st.1, st.2.set i (g st.1 i))) k
        (for_range (fun i (st : ρ × List α) => (st.1, st.2.set i (g st.1 i))) k (r, out)) = _
    rw [ih]
    rfl

theorem for_range_set_frame {α : Type} (g : Nat → α) (n : Nat) (out : List α) (j : Nat)
    (hj : n ≤ j) : (for_range (fun i r => r.set i (g i)) n out)[j]? = out[j]? := by
  rw [for_range_set_getElem?, if_neg (fun c => by omega)]

/-- On the integer element types: for every batch `b` with `N` lanes and every
destination buffer of length at least `N`, `store_unaligned` and `store_aligned` write
the converted lane `i` at every position `i < N`, keep the length of the buffer and the
content of every position from `N` on, and leave `b` unchanged; the same holds for the
store of a mask into a boolean buffer. -/
theorem frame_of_integer_stores (T U : Scalar) (A : Arch) (b : batch T A) (m : batch_bool T A)
    (dst : List Nat) (hdst : batch.size T A ≤ dst.length)
    (bdst : List Bool) (hbdst : batch_bool.size T A ≤ bdst.length) :
    (batch.store_unaligned_step U (b, dst) = (b, b.store_unaligned U dst) ∧
      (b.store_unaligned U dst).length = dst.length ∧
      (∀ i, i < batch.size T A →
        (b.store_unaligned U dst)[i]? = some (U.ofInt (T.toInt (b.data.getD i 0)))) ∧
      (∀ j, batch.size T A ≤ j → (b.store_unaligned U dst)[j]? = dst[j]?)) ∧
    (batch.store_aligned_step U (b, dst) = (b, b.store_aligned U dst) ∧
      (b.store_aligned U dst).length = dst.length ∧
      (∀ i, i < batch.size T A →
        (b.store_aligned U dst)[i]? = some (U.ofInt (T.toInt (b.data.getD i 0)))) ∧
      (∀ j, batch.size T A ≤ j → (b.store_aligned U dst)[j]? = dst[j]?)) ∧
    (batch_bool.store_aligned_step (m, bdst) = (m, m.store_aligned bdst) ∧
      (m.store_aligned bdst).length = bdst.length ∧
      (∀ i, i < batch_bool.size T A →
        (m.store_aligned bdst)[i]? = some (decide (m.data.getD i 0 ≠ 0))) ∧
      (∀ j, batch_bool.size T A ≤ j → (m.store_aligned bdst)[j]? = bdst[j]?)) := by
  have h1 : batch.store_unaligned_step U (b, dst) = (b, b.store_unaligned U dst) :=
    for_range_pair (fun (r : batch T A) i => U.ofInt (T.toInt (r.data.getD i 0))) _ b dst
  have h2 : (b.store_unaligned U dst).length = dst.length := by
    unfold batch.store_unaligned
    exact for_range_set_length _ _ _
  have h3 : ∀ i, i < batch.size T A →
      (b.store_unaligned U dst)[i]? = some (U.ofInt (T.toInt (b.data.getD i 0))) := by
    intro i hi
    unfold batch.store_unaligned
    rw [for_range_set_getElem?, if_pos ⟨hi, by omega⟩]
  have h4 : ∀ j, batch.size T A ≤ j → (b.store_unaligned U dst)[j]? = dst[j]? := by
    intro j hj
    unfold batch.store_unaligned
    exact for_range_set_frame _ _ _ j hj
  refine ⟨⟨h1, h2, h3, h4⟩, ⟨h1, h2, h3, h4⟩, ?_, ?_, ?_, ?_⟩
  · exact for_range_pair (fun (r : batch_bool T A) i => decide (r.data.getD i 0 ≠ 0)) _ m bdst
  · exact batch_bool.store_aligned_length m bdst
  · intro i hi
    exact batch_bool.store_aligned_getElem? m bdst i hi (by omega)
  · intro j hj
    unfold batch_bool.store_aligned
    exact for_range_set_frame _ _ _ j hj


/-! ## Every element type: broadcast and the frame of the stores -/

theorem get_bool_simd_register_cases (tgt : Target) (E : Element) (A : Arch) :
    (A = default_arch tgt →
      ∃ U : Scalar, get_bool_simd_register tgt E A = some (Element.integer U) ∧
        U.sizeof = E.sizeof) ∧
    (A ≠ default_arch tgt → get_bool_simd_register tgt E A = some E) := by
  obtain ⟨U, hU, _, hsz⟩ := get_unsigned_type_sizeof E
  constructor
  · intro h
    refine ⟨U, ?_, hsz⟩
    unfold get_bool_simd_register
    rw [if_pos h, hU]
    rfl
  · intro h
    unfold get_bool_simd_register
    rw [if_neg h]

theorem get_bool_simd_register_some (tgt : Target) (E : Element) (A : Arch) :
    ∃ L : Element, get_bool_simd_register tgt E A = some L := by
  by_cases h : A = default_arch tgt
  · obtain ⟨U, hU, _⟩ := (get_bool_simd_register_cases tgt E A).1 h
    exact ⟨_, hU⟩
  · exact ⟨E, (get_bool_simd_register_cases tgt E A).2 h⟩

/-- C11: for every element type `T` that is given registers (the integer types, `float`
and `double`), every tag `A`, every value `v` and every lane index `i < N`: `get(i)` of
the batch built by the broadcast constructor `batch(v)` is `v`; the static
`batch::broadcast(v)` and the free function `broadcast(v)` return the batch `batch(v)`,
which has `N = width(A) / sizeof(T)` lanes.  On an integer type `T` this is the batch
`batch<T, A>(v)` of the integer embedding. -/
theorem broadcast_get (E : Element) (A : Arch) (v : Nat) (i : Nat)
    (hi : i < any_batch.size E A) :
    any_batch.get (any_batch.ofScalar E A v) i = v ∧
    any_batch.broadcast E A v = any_batch.ofScalar E A v ∧
    any_broadcast E A v = any_batch.ofScalar E A v ∧
    (any_batch.ofScalar E A v).length = A.size / E.sizeof ∧
    (∀ T : Scalar, E = Element.integer T →
      (batch.ofScalar T A v).data = any_batch.ofScalar E A v ∧
      (batch.ofScalar T A v).get i = v ∧
      batch.broadcast T A v = batch.ofScalar T A v ∧
      broadcast T A v = batch.ofScalar T A v) := by
  have hget : any_batch.get (any_batch.ofScalar E A v) i = v := by
    unfold any_batch.get any_batch.ofScalar
    rw [List.getD_eq_getElem _ 0 (by simpa using hi)]
    simp
  refine ⟨hget, rfl, rfl, ?_, ?_⟩
  · simp [any_batch.ofScalar, any_batch.size]
  · intro T hT
    subst hT
    exact ⟨rfl, hget, rfl, rfl⟩

/-- An instance of C11: the `float` value 1.5 (pattern `0x3FC00000`) broadcast over the
eight lanes of `batch<float, avx2>`. -/
theorem broadcast_get_witness :
    (7 : Nat) < any_batch.size Element.float Arch.avx2 ∧
    any_batch.ofScalar Element.float Arch.avx2 0x3FC00000 =
      [0x3FC00000, 0x3FC00000, 0x3FC00000, 0x3FC00000, 0x3FC00000, 0x3FC00000, 0x3FC00000,
        0x3FC00000] ∧
    any_batch.get (any_batch.ofScalar Element.float Arch.avx2 0x3FC00000) 7 = 0x3FC00000 :=
  ⟨by decide, by decide,
    (broadcast_get Element.float Arch.avx2 0x3FC00000 7 (by decide)).1⟩

/-- C22: for every element type `T` (integer, `float` or `double`), every buffer element
type (through the lane conversion `conv`), every batch with `N` lanes and every
destination buffer of length at least `N`: `store_unaligned` and `store_aligned` write
the converted lane `i` at every position `i < N`, keep the length of the buffer and the
content of every position from `N` on, and leave the batch unchanged; the same holds
for the store of a mask of `batch_bool<T, A>` into a boolean buffer, on either target.
On the integer types these are the stores of the integer embedding. -/
theorem store_frame (tgt : Target) (E : Element) (A : Arch) (conv : Nat → Nat)
    (d dst : List Nat) (hdst : any_batch.size E A ≤ dst.length)
    (md : List Nat) (bdst : List Bool) (hbdst : any_batch_bool.size E A ≤ bdst.length) :
    (any_batch.store_unaligned_step E A conv (d, dst) =
        (d, any_batch.store_unaligned E A conv d dst) ∧
      (any_batch.store_unaligned E A conv d dst).length = dst.length ∧
      (∀ i, i < any_batch.size E A →
        (any_batch.store_unaligned E A conv d dst)[i]? = some (conv (d.getD i 0))) ∧
      (∀ j, any_batch.size E A ≤ j →
        (any_batch.store_unaligned E A conv d dst)[j]? = dst[j]?)) ∧
    (any_batch.store_aligned_step E A conv (d, dst) =
        (d, any_batch.store_aligned E A conv d dst) ∧
      (any_batch.store_aligned E A conv d dst).length = dst.length ∧
      (∀ i, i < any_batch.size E A →
        (any_batch.store_aligned E A conv d dst)[i]? = some (conv (d.getD i 0))) ∧
      (∀ j, any_batch.size E A ≤ j →
        (any_batch.store_aligned E A conv d dst)[j]? = dst[j]?)) ∧
    (∃ (L : Element) (out : List Bool),
      get_bool_simd_register tgt E A = some L ∧
      any_batch_bool.store_aligned tgt E A md bdst = some out ∧
      any_batch_bool.store_aligned_step tgt E A (md, bdst) = some (md, out) ∧
      out.length = bdst.length ∧
      (∀ i, i < any_batch_bool.size E A → out[i]? = some (L.lane_to_bool (md.getD i 0))) ∧
      (∀ j, any_batch_bool.size E A ≤ j → out[j]? = bdst[j]?)) ∧
    (∀ (T U : Scalar) (b : batch T A) (m : batch_bool T A), E = Element.integer T →
      b.store_unaligned U dst =
        any_batch.store_unaligned E A (fun p => U.ofInt (T.toInt p)) b.data dst ∧
      b.store_aligned U dst =
        any_batch.store_aligned E A (fun p => U.ofInt (T.toInt p)) b.data dst ∧
      any_batch_bool.store_aligned tgt E A m.data bdst = some (m.store_aligned bdst) ∧
      batch.store_unaligned_step U (b, dst) = (b, b.store_unaligned U dst) ∧
      batch.store_aligned_step U (b, dst) = (b, b.store_aligned U dst) ∧
      batch_bool.store_aligned_step (m, bdst) = (m, m.store_aligned bdst)) := by
  have h1 : any_batch.store_unaligned_step E A conv (d, dst) =
      (d, any_batch.store_unaligned E A conv d dst) :=
    for_range_pair (fun (r : List Nat) i => conv (r.getD i 0)) _ d dst
  have h2 : (any_batch.store_unaligned E A conv d dst).length = dst.length := by
    unfold any_batch.store_unaligned
    exact for_range_set_length _ _ _
  have h3 : ∀ i, i < any_batch.size E A →
      (any_batch.store_unaligned E A conv d dst)[i]? = some (conv (d.getD i 0)) := by
    intro i hi
    unfold any_batch.store_unaligned
    rw [for_range_set_getElem?, if_pos ⟨hi, by omega⟩]
  have h4 : ∀ j, any_batch.size E A ≤ j →
      (any_batch.store_unaligned E A conv d dst)[j]? = dst[j]? := by
    intro j hj
    unfold any_batch.store_unaligned
    exact for_range_set_frame _ _ _ j hj
  obtain ⟨L, hL⟩ := get_bool_simd_register_some tgt E A
  refine ⟨⟨h1, h2, h3, h4⟩, ⟨h1, h2, h3, h4⟩, ?_, ?_⟩
  · refine ⟨L, for_range (fun i out => out.set i (L.lane_to_bool (md.getD i 0)))
      (any_batch_bool.size E A) bdst, hL, ?_, ?_, ?_, ?_, ?_⟩
    · unfold any_batch_bool.store_aligned
      rw [hL]
    · unfold any_batch_bool.store_aligned_step
      rw [hL]
      exact congrArg some
        (for_range_pair (fun (r : List Nat) i => L.lane_to_bool (r.getD i 0)) _ md bdst)
    · exact for_range_set_length _ _ _
    · intro i hi
      rw [for_range_set_getElem?, if_pos ⟨hi, by omega⟩]
    · intro j hj
      exact for_range_set_frame _ _ _ j hj
  · intro T U b m hE
    subst hE
    obtain ⟨L2, hL2⟩ := get_bool_simd_register_integer tgt T A
    have hi := frame_of_integer_stores T U A b m dst hdst bdst hbdst
    refine ⟨rfl, rfl, ?_, hi.1.1, hi.2.1.1, hi.2.2.1⟩
    unfold any_batch_bool.store_aligned
    rw [hL2]
    rfl

/-- An instance of C22: the four lanes of a `batch<float, sse2>` stored into a `float`
buffer of six elements, and a four-lane mask of `batch_bool<float, sse2>` stored into
six booleans; the last two elements keep their content. -/
theorem store_frame_witness :
    any_batch.size Element.float Arch.sse2 ≤
      [9, 9, 9, 9, 0x40490FDB, 0x3F800000].length ∧
    any_batch_bool.size Element.float Arch.sse2 ≤
      [false, false, false, false, true, false].length ∧
    any_batch.store_unaligned Element.float Arch.sse2 id
        [0x3FC00000, 0xBF800000, 0, 0x7F800000] [9, 9, 9, 9, 0x40490FDB, 0x3F800000] =
      [0x3FC00000, 0xBF800000, 0, 0x7F800000, 0x40490FDB, 0x3F800000] ∧
    any_batch_bool.store_aligned Target.avx2 Element.float Arch.sse2
        [0xBF800000, 0, 0x80000000, 0xBF800000] [false, false, false, false, true, false] =
      some [true, false, false, true, true, false] ∧
    any_batch.store_unaligned_step Element.float Arch.sse2 id
        ([0x3FC00000, 0xBF800000, 0, 0x7F800000], [9, 9, 9, 9, 0x40490FDB, 0x3F800000]) =
      ([0x3FC00000, 0xBF800000, 0, 0x7F800000],
        any_batch.store_unaligned Element.float Arch.sse2 id
          [0x3FC00000, 0xBF800000, 0, 0x7F800000] [9, 9, 9, 9, 0x40490FDB, 0x3F800000]) :=
  ⟨by decide, by decide, by decide, by decide,
    (store_frame Target.avx2 Element.float Arch.sse2 id
      [0x3FC00000, 0xBF800000, 0, 0x7F800000] [9, 9, 9, 9, 0x40490FDB, 0x3F800000]
      (by decide) [0xBF800000, 0, 0x80000000, 0xBF800000]
      [false, false, false, false, true, false] (by decide)).1.1⟩

/-! ## Every element type: masks -/

theorem Scalar.bits_congr (L T : Scalar) (h : L.sizeof = T.sizeof) : L.bits = T.bits := by
  unfold Scalar.bits; rw [h]

theorem Scalar.ofInt_congr (L T : Scalar) (h : L.sizeof = T.sizeof) (v : Int) :
    L.ofInt v = T.ofInt v := by
  unfold Scalar.ofInt; rw [Scalar.bits_congr L T h]

theorem get_bool_simd_register_integer_sizeof (tgt : Target) (T : Scalar) (A : Arch) :
    ∃ L : Scalar, get_bool_simd_register tgt (Element.integer T) A =
      some (Element.integer L) ∧ L.sizeof = T.sizeof := by
  by_cases h : A = default_arch tgt
  · obtain ⟨U, hU, hsz⟩ := (get_bool_simd_register_cases tgt (Element.integer T) A).1 h
    exact ⟨U, hU, hsz⟩
  · exact ⟨T, (get_bool_simd_register_cases tgt (Element.integer T) A).2 h, rfl⟩

theorem Scalar.toInt_inj (T : Scalar) (p q : Nat) (hp : p < 2 ^ T.bits) (hq : q < 2 ^ T.bits)
    (h : T.toInt p = T.toInt q) : p = q := by
  rw [← T.ofInt_toInt p hp, ← T.ofInt_toInt q hq, h]

theorem array_eq_integer (L : Scalar) (d1 d2 : List Nat) (h1 : ∀ x ∈ d1, x < 2 ^ L.bits)
    (h2 : ∀ x ∈ d2, x < 2 ^ L.bits) :
    array_eq (Element.integer L) d1 d2 = decide (d1 = d2) := by
  induction d1 generalizing d2 with
  | nil =>
    cases d2 with
    | nil => rfl
    | cons y ys => simp [array_eq]
  | cons x xs ih =>
    cases d2 with
    | nil => simp [array_eq]
    | cons y ys =>
      have hx : x < 2 ^ L.bits := h1 x (List.mem_cons_self _ _)
      have hy : y < 2 ^ L.bits := h2 y (List.mem_cons_self _ _)
      have ih2 := ih ys (fun z hz => h1 z (List.mem_cons_of_mem _ hz))
        (fun z hz => h2 z (List.mem_cons_of_mem _ hz))
      have hlane : Element.lane_eq (Element.integer L) x y = decide (x = y) := by
        unfold Element.lane_eq
        by_cases hxy : x = y
        · rw [hxy]; simp
        · have : L.toInt x ≠ L.toInt y := fun c => hxy (L.toInt_inj x y hx hy c)
          simp [this, hxy]
      have hstep : array_eq (Element.integer L) (x :: xs) (y :: ys) =
          (Element.lane_eq (Element.integer L) x y && array_eq (Element.integer L) xs ys) := by
        unfold array_eq
        simp only [List.length_cons, List.zipWith_cons_cons, List.all_cons, id,
          Nat.add_right_cancel_iff]
        generalize decide (xs.length = ys.length) = b1
        generalize Element.lane_eq (Element.integer L) x y = b2
        generalize (List.zipWith (Element.integer L).lane_eq xs ys).all (fun z => z) = b3
        cases b1 <;> cases b2 <;> cases b3 <;> rfl
      rw [hstep, hlane, ih2]
      by_cases hxy : x = y
      · by_cases hl : xs = ys
        · simp [hxy, hl]
        · simp [hxy, hl]
      · simp [hxy]

/-- On an integer element type, under every tag and on both targets, the mask members
defined for any element type are the ones of the integer embedding. -/
theorem any_batch_bool_integer (tgt : Target) (T : Scalar) (A : Arch)
    (m1 m2 : batch_bool T A) (h1 : m1.wf) (h2 : m2.wf) (val : Bool) (src dst : List Bool) :
    any_batch_bool.ofBool tgt (Element.integer T) A val =
      some (batch_bool.ofBool T A val).data ∧
    any_batch_bool.op_eq tgt (Element.integer T) A m1.data m2.data =
      some (m1.op_eq m2).data ∧
    any_batch_bool.op_ne tgt (Element.integer T) A m1.data m2.data =
      some (m1.op_ne m2).data ∧
    any_batch_bool.store_aligned tgt (Element.integer T) A m1.data dst =
      some (m1.store_aligned dst) ∧
    any_batch_bool.load_aligned tgt (Element.integer T) A src =
      some (batch_bool.load_aligned T A src).data := by
  obtain ⟨L, hL, hsz⟩ := get_bool_simd_register_integer_sizeof tgt T A
  have hbits := Scalar.bits_congr L T hsz
  have hofBool : ∀ v, any_batch_bool.ofBool tgt (Element.integer T) A v =
      some (batch_bool.ofBool T A v).data := by
    intro v
    unfold any_batch_bool.ofBool
    rw [hL]
    rfl
  have harr : array_eq (Element.integer L) m1.data m2.data = decide (m1.data = m2.data) :=
    array_eq_integer L _ _ (by rw [hbits]; exact h1.2) (by rw [hbits]; exact h2.2)
  refine ⟨hofBool val, ?_, ?_, ?_, ?_⟩
  · unfold any_batch_bool.op_eq
    rw [hL]
    simp only [harr, hofBool]
    rfl
  · unfold any_batch_bool.op_ne
    rw [hL]
    simp only [harr, hofBool]
    unfold batch_bool.op_ne
    by_cases e : m1.data = m2.data
    · simp [e]
    · simp [e]
  · unfold any_batch_bool.store_aligned
    rw [hL]
    rfl
  · unfold any_batch_bool.load_aligned batch_bool.load_aligned
    rw [hL]
    simp only [Element.true_v, Element.false_v, batch_bool.true_v, batch_bool.false_v,
      L.ofInt_congr T hsz]
    refine congrArg some ?_
    show for_range _ (A.size / T.sizeof) _ = for_range _ (A.size / T.sizeof) _
    congr 1
    funext i result
    rw [apply_ite T.ofInt]

/-- C7 fails as stated for a floating-point element type under a tag other than the
default one.  The mask of `batch_bool<float, sse2>` with lanes
`(0xFFFFFFFF, 0, 0, 0xFFFFFFFF)` has only all-ones and all-zero lanes; its lanes have
type `float`, the store writes (true, false, false, true) (an all-ones lane is a NaN,
which is not zero), and the load writes the `int` -1 into a `float` lane, which gives
-1.0f: the mask loaded back is `(0xBF800000, 0, 0, 0xBF800000)`, not the original. -/
theorem mask_store_load_of_float_not_roundtrip :
    get_bool_simd_register Target.avx2 Element.float Arch.sse2 = some Element.float ∧
    get_bool_simd_register Target.aarch64 Element.float Arch.sse2 = some Element.float ∧
    register_wf Element.float Arch.sse2 [0xFFFFFFFF, 0, 0, 0xFFFFFFFF] ∧
    (∀ x ∈ [0xFFFFFFFF, 0, 0, 0xFFFFFFFF],
      x = 2 ^ (8 * Element.float.sizeof) - 1 ∨ x = 0) ∧
    any_batch_bool.store_aligned Target.avx2 Element.float Arch.sse2
        [0xFFFFFFFF, 0, 0, 0xFFFFFFFF] [false, false, false, false] =
      some [true, false, false, true] ∧
    any_batch_bool.load_aligned Target.avx2 Element.float Arch.sse2
        [true, false, false, true] = some [0xBF800000, 0, 0, 0xBF800000] ∧
    any_batch_bool.store_aligned Target.aarch64 Element.float Arch.sse2
        [0xFFFFFFFF, 0, 0, 0xFFFFFFFF] [false, false, false, false] =
      some [true, false, false, true] ∧
    any_batch_bool.load_aligned Target.aarch64 Element.float Arch.sse2
        [true, false, false, true] = some [0xBF800000, 0, 0, 0xBF800000] ∧
    ([0xBF800000, 0, 0, 0xBF800000] : List Nat) ≠ [0xFFFFFFFF, 0, 0, 0xFFFFFFFF] := by
  decide

/-- C8 fails as stated for a floating-point element type under a tag other than the
default one.  For `m1 = m2 = batch_bool<float, sse2>(false)`, whose lanes are all 0.0f
and so identical, `m1 == m2` fills the lanes with `true_v`, which is -1.0f
(`0xBF800000`) and not the all-ones pattern.  For two masks that differ in one lane,
`m1 == m2` is the all-zero mask while `m1 != m2` has lanes `0xBF800000`, which is not
the all-ones mask. -/
theorem mask_equality_of_float_not_allOnes :
    get_bool_simd_register Target.avx2 Element.float Arch.sse2 = some Element.float ∧
    get_bool_simd_register Target.aarch64 Element.float Arch.sse2 = some Element.float ∧
    any_batch_bool.ofBool Target.avx2 Element.float Arch.sse2 false = some [0, 0, 0, 0] ∧
    any_batch_bool.op_eq Target.avx2 Element.float Arch.sse2 [0, 0, 0, 0] [0, 0, 0, 0] =
      some [0xBF800000, 0xBF800000, 0xBF800000, 0xBF800000] ∧
    any_batch_bool.op_eq Target.aarch64 Element.float Arch.sse2 [0, 0, 0, 0] [0, 0, 0, 0] =
      some [0xBF800000, 0xBF800000, 0xBF800000, 0xBF800000] ∧
    any_batch_bool.op_eq Target.avx2 Element.float Arch.sse2 [0, 0, 0, 0]
      [0, 0, 0xBF800000, 0] = some [0, 0, 0, 0] ∧
    any_batch_bool.op_ne Target.avx2 Element.float Arch.sse2 [0, 0, 0, 0]
      [0, 0, 0xBF800000, 0] = some [0xBF800000, 0xBF800000, 0xBF800000, 0xBF800000] ∧
    ([0xBF800000, 0xBF800000, 0xBF800000, 0xBF800000] : List Nat) ≠
      List.replicate (any_batch_bool.size Element.float Arch.sse2)
        (2 ^ (8 * Element.float.sizeof) - 1) := by
  decide

/-- C7, amended: for every element type `T`, target and tag `A` such that the lanes of
`batch_bool<T, A>` are of an integer type (every `T` under the default tag, an integer
`T` under every tag), and every mask whose lanes are each all-ones or all-zero: storing
the mask into a boolean buffer of at least `N` elements and loading a mask from that
buffer returns the mask.  On an integer `T` this is the round trip of the integer
embedding. -/
theorem mask_store_load_roundtrip (tgt : Target) (E : Element) (A : Arch) (d : List Nat)
    (hd : register_wf E A d)
    (hs : ∀ x ∈ d, x = 2 ^ (8 * E.sizeof) - 1 ∨ x = 0)
    (hlane : A = default_arch tgt ∨ ∃ T : Scalar, E = Element.integer T)
    (buf : List Bool) (hbuf : any_batch_bool.size E A ≤ buf.length) :
    (∃ out : List Bool,
      any_batch_bool.store_aligned tgt E A d buf = some out ∧
      any_batch_bool.load_aligned tgt E A out = some d) ∧
    (∀ (T : Scalar) (m : batch_bool T A), m.wf → m.sentinel →
      batch_bool.size T A ≤ buf.length →
      batch_bool.load_aligned T A (m.store_aligned buf) = m) := by
  refine ⟨?_, fun T m hm hms hb => roundtrip_of_integer_mask_store T A m hm hms buf hb⟩
  have hL : ∃ L : Scalar, get_bool_simd_register tgt E A = some (Element.integer L) ∧
      L.sizeof = E.sizeof := by
    rcases hlane with h | ⟨T, hT⟩
    · exact (get_bool_simd_register_cases tgt E A).1 h
    · subst hT
      exact get_bool_simd_register_integer_sizeof tgt T A
  obtain ⟨L, hL, hsz⟩ := hL
  have hbits : E.bits = L.bits := by unfold Element.bits Scalar.bits; rw [hsz]
  have hsize : any_batch_bool.size E A = batch_bool.size L A := by
    unfold any_batch_bool.size batch_bool.size; rw [hsz]
  have w : (⟨d⟩ : batch_bool L A).wf := by
    refine ⟨?_, ?_⟩
    · show d.length = A.size / L.sizeof
      rw [hsz]; exact hd.1
    · intro x hx
      rw [← hbits]; exact hd.2 x hx
  have ws : (⟨d⟩ : batch_bool L A).sentinel := by
    intro x hx
    have := hs x hx
    unfold Scalar.allOnes Scalar.bits
    rw [hsz]
    exact this
  have key := roundtrip_of_integer_mask_store L A ⟨d⟩ w ws buf (by rw [← hsize]; exact hbuf)
  refine ⟨(⟨d⟩ : batch_bool L A).store_aligned buf, ?_, ?_⟩
  · unfold any_batch_bool.store_aligned
    rw [hL, hsize]
    rfl
  · have kd := congrArg batch_bool.data key
    unfold any_batch_bool.load_aligned
    rw [hL, hsize]
    refine congrArg some ?_
    refine Eq.trans ?_ kd
    unfold batch_bool.load_aligned
    simp only [Element.true_v, Element.false_v, batch_bool.true_v, batch_bool.false_v]
    congr 1
    funext i result
    rw [apply_ite L.ofInt]

/-- An instance of C7, amended: an eight-lane mask of `batch_bool<float, avx2>` on the
AVX2 target, whose lanes are `uint32_t`. -/
theorem mask_store_load_roundtrip_witness :
    register_wf Element.float Arch.avx2
      [4294967295, 0, 0, 4294967295, 0, 0, 4294967295, 4294967295] ∧
    (∀ x ∈ [4294967295, 0, 0, 4294967295, 0, 0, 4294967295, 4294967295],
      x = 2 ^ (8 * Element.float.sizeof) - 1 ∨ x = 0) ∧
    any_batch_bool.size Element.float Arch.avx2 ≤
      [false, false, false, false, false, false, false, false].length ∧
    any_batch_bool.store_aligned Target.avx2 Element.float Arch.avx2
        [4294967295, 0, 0, 4294967295, 0, 0, 4294967295, 4294967295]
        [false, false, false, false, false, false, false, false] =
      some [true, false, false, true, false, false, true, true] ∧
    any_batch_bool.load_aligned Target.avx2 Element.float Arch.avx2
        [true, false, false, true, false, false, true, true] =
      some [4294967295, 0, 0, 4294967295, 0, 0, 4294967295, 4294967295] ∧
    (∃ out : List Bool,
      any_batch_bool.store_aligned Target.avx2 Element.float Arch.avx2
        [4294967295, 0, 0, 4294967295, 0, 0, 4294967295, 4294967295]
        [false, false, false, false, false, false, false, false] = some out ∧
      any_batch_bool.load_aligned Target.avx2 Element.float Arch.avx2 out =
        some [4294967295, 0, 0, 4294967295, 0, 0, 4294967295, 4294967295]) :=
  ⟨by decide, by decide, by decide, by decide, by decide,
    (mask_store_load_roundtrip Target.avx2 Element.float Arch.avx2
      [4294967295, 0, 0, 4294967295, 0, 0, 4294967295, 4294967295] (by decide) (by decide)
      (Or.inl (by decide)) [false, false, false, false, false, false, false, false]
      (by decide)).1⟩
end xsimd
